import Mathlib

/-!
Verification development for the rlox front end (scanner `src/scanner.rs`,
cursor `src/marcher.rs`, parser `src/parser.rs`, token model `src/token.rs`,
AST `src/expression.rs`, diagnostics `src/error_fmt.rs`).

Modelling conventions:
* Source text is the byte vector `Vec<u8>` of the Rust code, embedded as
  `List Nat` (each entry a byte value).  Rust `String` values produced by the
  scanner (lexemes, literals, messages) are likewise kept as UTF-8 byte lists;
  `String::from_utf8(..)` is the identity on the bytes guarded by a UTF-8
  validity check.
* Rust `f64` literals are abstracted as exact decimal numbers
  (`F64`, a normalized mantissa/scale pair): `"12.3".parse::<f64>()` becomes
  the exact value 123/10.  Formatting follows Rust's shortest-round-trip
  printing under this abstraction (`Display` prints `12`, `Debug` prints
  `12.0` for the integer 12).
* Panics (`unwrap` on `None`/`Err`, out-of-range slicing) are modelled by
  `Option`: a `none` result is a panic of the Rust program.
* Loops and recursion are driven by an explicit `fuel : Nat` so that every
  definition is executable; call sites pass a fuel that provably exceeds any
  possible iteration count, so the fuel never runs out on the real behaviour.
-/

namespace Rlox

/-- ASCII bytes of a Lean string literal; used to write concrete inputs. -/
def strBytes (s : String) : List Nat := s.data.map Char.toNat

/-- Rust `char::is_digit(10)` on a byte read as a `char`. -/
def isDigit (b : Nat) : Bool := 48 ≤ b && b ≤ 57

/-- Rust `char::is_ascii_alphabetic` on a byte read as a `char`. -/
def isAsciiAlpha (b : Nat) : Bool := (65 ≤ b && b ≤ 90) || (97 ≤ b && b ≤ 122)

/-- Rust `char::is_alphanumeric` on a byte read as a `char` (the byte is
interpreted as the Unicode scalar with the same value, i.e. Latin-1): ASCII
digits and letters plus the Latin-1 alphanumerics (ª ² ³ µ ¹ º ¼ ½ ¾, the
letter ranges À–Ö, Ø–ö, ø–ÿ). -/
def isAlphanumeric (b : Nat) : Bool :=
  isDigit b || isAsciiAlpha b ||
  b == 0xAA || b == 0xB2 || b == 0xB3 || b == 0xB5 || b == 0xB9 || b == 0xBA ||
  b == 0xBC || b == 0xBD || b == 0xBE ||
  (0xC0 ≤ b && b ≤ 0xD6) || (0xD8 ≤ b && b ≤ 0xF6) || (0xF8 ≤ b && b ≤ 0xFF)

/-- Continuation byte check for UTF-8 validation. -/
def isCont (b : Nat) : Bool := 0x80 ≤ b && b ≤ 0xBF

/-- Nat class of a UTF-8 head byte: the number of continuation bytes it
requires and the allowed range of the first continuation byte, per the
standard table `String::from_utf8` validates against (`9` marks an invalid
head byte). -/
def utf8HeadClass (b : Nat) : Nat × Nat × Nat :=
  if b < 0x80 then (0, 0, 0)
  else if 0xC2 ≤ b && b ≤ 0xDF then (1, 0x80, 0xBF)
  else if b == 0xE0 then (2, 0xA0, 0xBF)
  else if (0xE1 ≤ b && b ≤ 0xEC) || b == 0xEE || b == 0xEF then (2, 0x80, 0xBF)
  else if b == 0xED then (2, 0x80, 0x9F)
  else if b == 0xF0 then (3, 0x90, 0xBF)
  else if 0xF1 ≤ b && b ≤ 0xF3 then (3, 0x80, 0xBF)
  else if b == 0xF4 then (3, 0x80, 0x8F)
  else (9, 0, 0)

/-- UTF-8 validity of a byte list, mirroring `String::from_utf8`'s check:
each head byte's class fixes how many continuation bytes follow and the
range of the first one. -/
def utf8Valid : List Nat → Bool
  | [] => true
  | b :: rest =>
    match utf8HeadClass b with
    | (0, _, _) => utf8Valid rest
    | (1, lo, hi) =>
      match rest with
      | c1 :: rest1 => (lo ≤ c1 && c1 ≤ hi) && utf8Valid rest1
      | _ => false
    | (2, lo, hi) =>
      match rest with
      | c1 :: c2 :: rest2 => (lo ≤ c1 && c1 ≤ hi) && isCont c2 && utf8Valid rest2
      | _ => false
    | (3, lo, hi) =>
      match rest with
      | c1 :: c2 :: c3 :: rest3 =>
        (lo ≤ c1 && c1 ≤ hi) && isCont c2 && isCont c3 && utf8Valid rest3
      | _ => false
    | _ => false

/-- Rust slice indexing `v[a..b]`: defined when `a ≤ b ≤ v.len()`, a panic
(`none`) otherwise. -/
def sliceOpt (l : List Nat) (a b : Nat) : Option (List Nat) :=
  if a ≤ b ∧ b ≤ l.length then some ((l.drop a).take (b - a)) else none

/-- Exact-decimal abstraction of a Rust `f64` literal value: `mantissa / 10 ^
scale`.  Values built by `parseNum` are normalized (no trailing decimal
zeros), matching `f64` equality and shortest-round-trip printing. -/
structure F64 where
  mantissa : Nat
  scale : Nat
deriving DecidableEq

/-- Strip trailing zeros of the fractional part: `⟨1230, 2⟩` (12.30) becomes
`⟨123, 1⟩` (12.3), the canonical form of the `f64` it abstracts. -/
def normScale : Nat → Nat → F64
  | m, 0 => ⟨m, 0⟩
  | m, s + 1 => if m % 10 == 0 then normScale (m / 10) s else ⟨m, s + 1⟩

/-- Numeric value of a digit-byte string, most significant first. -/
def natOfDigits (l : List Nat) : Nat := l.foldl (fun a d => a * 10 + (d - 48)) 0

/-- Split a byte list at the first `.` byte, if any. -/
def splitDot : List Nat → List Nat × Option (List Nat)
  | [] => ([], none)
  | c :: t =>
    if c == 46 then ([], some t)
    else
      let p := splitDot t
      (c :: p.1, p.2)

/-- Rust `str::parse::<f64>()` restricted to the digit/dot strings the scanner
can produce: plain digit runs and runs with a single interior dot parse to
their exact decimal value; anything else (two dots, empty) is an error, which
the scanner then `unwrap`s into a panic. -/
def parseNum (w : List Nat) : Option F64 :=
  match splitDot w with
  | (a, none) =>
    if a ≠ [] ∧ a.all isDigit then some (normScale (natOfDigits a) 0) else none
  | (a, some b) =>
    if ¬ b.contains 46 ∧ (a ≠ [] ∨ b ≠ []) ∧ a.all isDigit ∧ b.all isDigit then
      some (normScale (natOfDigits (a ++ b)) b.length)
    else none

/-- Fueled digit expansion; the fuel exceeds the digit count at call sites. -/
def natDigitsGo : Nat → Nat → List Nat
  | 0, _ => []
  | fuel + 1, n => if n < 10 then [48 + n] else natDigitsGo fuel (n / 10) ++ [48 + n % 10]

/-- Decimal digit bytes of a natural number, most significant first. -/
def natDigits (n : Nat) : List Nat := natDigitsGo (n + 1) n

/-- Digit bytes of `n` left-padded with zeros to width `k` (fraction part). -/
def natDigitsPad (k : Nat) (n : Nat) : List Nat :=
  let d := natDigits n
  List.replicate (k - d.length) 48 ++ d

/-- Rust `Display` (`{}`) of the abstracted `f64`: `12` for 12.0, `12.3` for
12.3 (shortest round-trip form, no trailing `.0`). -/
def F64.display (v : F64) : List Nat :=
  if v.scale == 0 then natDigits v.mantissa
  else natDigits (v.mantissa / 10 ^ v.scale) ++ [46] ++
    natDigitsPad v.scale (v.mantissa % 10 ^ v.scale)

/-- Rust `Debug` (`{:?}`) of the abstracted `f64`: like `Display` but an
integral value keeps a trailing `.0` (`12.0`). -/
def F64.debugFmt (v : F64) : List Nat :=
  if v.scale == 0 then natDigits v.mantissa ++ strBytes ".0" else v.display

/-- `TokenType` from `src/token.rs` (plus `Question`/`Colon`, which
`src/scanner.rs` and `src/parser.rs` reference for the extended ternary
grammar). -/
inductive TokenType
  | LeftParen | RightParen | LeftBrace | RightBrace
  | Comma | Dot | Semicolon | Minus | Plus | Slash | Star
  | Bang | BangEqual | Equal | EqualEqual
  | Greater | GreaterEqual | Less | LessEqual
  | Identifier | String | Number
  | And | Class | Else | False | Fun | For | If | Nil | Or
  | Print | Return | Super | This | True | Var | While | Eof
  | Question | Colon
deriving DecidableEq

/-- `Literal` from `src/token.rs`; text payloads are UTF-8 byte lists. -/
inductive Literal
  | Identifier (s : List Nat)
  | String (s : List Nat)
  | Number (v : F64)
deriving DecidableEq

/-- `Literal::as_number` from `src/token.rs`. -/
def Literal.as_number : Literal → Option F64
  | .Number v => some v
  | _ => none

/-- `Literal::as_string` from `src/token.rs`. -/
def Literal.as_string : Literal → Option (List Nat)
  | .String s => some s
  | _ => none

/-- `impl Display for Literal` from `src/token.rs`: the payload's text, a
number in `{}` format. -/
def Literal.displayFmt : Literal → List Nat
  | .Identifier s => s
  | .String s => s
  | .Number v => v.display

/-- `Token` from `src/token.rs`. -/
structure Token where
  tokenType : TokenType
  lexeme : List Nat
  line : Nat
  col : Nat
  literal : Option Literal
deriving DecidableEq

/-- `Error` from `src/error_fmt.rs`: message, offending source line text,
line, column. -/
structure Error where
  message : List Nat
  text : List Nat
  line : Nat
  col : Nat
deriving DecidableEq

/-- Mutable scanner state from `src/scanner.rs` (`Scanner` minus the fixed
tables and the immutable `source`, which is passed separately as `src`). -/
structure ScanState where
  tokens : List Token
  errors : List Error
  start : Nat
  col : Nat
  line : Nat
deriving DecidableEq

/-- The `keywords` table built in `Scanner::default` — seventeen entries,
including `eof`. -/
def keywords : List (List Nat × TokenType) :=
  [(strBytes "and", .And), (strBytes "class", .Class), (strBytes "else", .Else),
   (strBytes "false", .False), (strBytes "fun", .Fun), (strBytes "for", .For),
   (strBytes "if", .If), (strBytes "nil", .Nil), (strBytes "or", .Or),
   (strBytes "print", .Print), (strBytes "return", .Return),
   (strBytes "super", .Super), (strBytes "this", .This), (strBytes "true", .True),
   (strBytes "var", .Var), (strBytes "while", .While), (strBytes "eof", .Eof)]

/-- `self.keywords.get(&identifier)`: look the text up in the table. -/
def keywordLookup (w : List Nat) : Option TokenType :=
  (keywords.find? fun p => p.1 == w).map (·.2)

/-- `Scanner::peek`: read the byte at `col` (or `col + 1` when `one_extra`). -/
def peek (src : List Nat) (s : ScanState) (one_extra : Bool) : Option Nat :=
  src.get? (s.col + if one_extra then 1 else 0)

/-- `Scanner::advance_if`: consume the next byte iff it equals `expected`;
returns the `did_match` flag with the updated state. -/
def advance_if (src : List Nat) (expected : Nat) (s : ScanState) :
    Bool × ScanState :=
  let did_match :=
    match peek src s false with
    | some c => c == expected
    | none => false
  if did_match then (true, {s with col := s.col + 1}) else (false, s)

/-- `Scanner::add_error`: append a diagnostic carrying the whole source text
(`String::from_utf8(source).unwrap_or("Invalid UTF8 chars in source.")`). -/
def add_error (src : List Nat) (message : List Nat) (s : ScanState) :
    ScanState :=
  let lineText := if utf8Valid src then src else strBytes "Invalid UTF8 chars in source."
  {s with errors :=
    s.errors ++ [⟨strBytes "Lexical Error: " ++ message, lineText, s.line, s.col⟩]}

/-- `Scanner::add_token_literal`: for `String`/`Number`/`Identifier` the
lexeme is the literal's `to_string()` (`unwrap` panics when absent); otherwise
it is the consumed source slice `source[start..col]` decoded as UTF-8 (both
the slice and the decode can panic, giving `none`). -/
def add_token_literal (src : List Nat) (token_type : TokenType)
    (literal : Option Literal) (s : ScanState) : Option ScanState :=
  let lexeme? : Option (List Nat) :=
    match token_type with
    | .String | .Number | .Identifier =>
      match literal with
      | some l => some l.displayFmt
      | none => none
    | _ => (sliceOpt src s.start s.col).bind
        fun bs => if utf8Valid bs then some bs else none
  lexeme?.map fun lexeme =>
    {s with tokens := s.tokens ++ [⟨token_type, lexeme, s.line, s.col, literal⟩]}

/-- `Scanner::add_token`. -/
def add_token (src : List Nat) (token_type : TokenType) (s : ScanState) :
    Option ScanState :=
  add_token_literal src token_type none s

/-- Lexing handler for `{`. -/
def left_brace (src : List Nat) (s : ScanState) : Option ScanState :=
  add_token src .LeftBrace s

/-- Lexing handler for `}`. -/
def right_brace (src : List Nat) (s : ScanState) : Option ScanState :=
  add_token src .RightBrace s

/-- Lexing handler for `(`. -/
def left_paren (src : List Nat) (s : ScanState) : Option ScanState :=
  add_token src .LeftParen s

/-- Lexing handler for `)`. -/
def right_paren (src : List Nat) (s : ScanState) : Option ScanState :=
  add_token src .RightParen s

/-- Lexing handler for `,`. -/
def comma (src : List Nat) (s : ScanState) : Option ScanState :=
  add_token src .Comma s

/-- Lexing handler for `.`. -/
def dot (src : List Nat) (s : ScanState) : Option ScanState :=
  add_token src .Dot s

/-- Lexing handler for `-`. -/
def minus (src : List Nat) (s : ScanState) : Option ScanState :=
  add_token src .Minus s

/-- Lexing handler for `+`. -/
def plus (src : List Nat) (s : ScanState) : Option ScanState :=
  add_token src .Plus s

/-- Lexing handler for `;`. -/
def semicolon (src : List Nat) (s : ScanState) : Option ScanState :=
  add_token src .Semicolon s

/-- Lexing handler for `*`. -/
def star (src : List Nat) (s : ScanState) : Option ScanState :=
  add_token src .Star s

/-- Lexing handler for `?`. -/
def question (src : List Nat) (s : ScanState) : Option ScanState :=
  add_token src .Question s

/-- Lexing handler for `:`. -/
def colon (src : List Nat) (s : ScanState) : Option ScanState :=
  add_token src .Colon s

/-- `Scanner::bang`: `!` or `!=`. -/
def bang (src : List Nat) (s : ScanState) : Option ScanState :=
  let r := advance_if src 61 s
  add_token src (if r.1 then .BangEqual else .Bang) r.2

/-- `Scanner::equal`: `=` or `==`. -/
def equal (src : List Nat) (s : ScanState) : Option ScanState :=
  let r := advance_if src 61 s
  add_token src (if r.1 then .EqualEqual else .Equal) r.2

/-- `Scanner::greater`: `>` or `>=`. -/
def greater (src : List Nat) (s : ScanState) : Option ScanState :=
  let r := advance_if src 61 s
  add_token src (if r.1 then .GreaterEqual else .Greater) r.2

/-- `Scanner::lesser`: `<` or `<=`. -/
def lesser (src : List Nat) (s : ScanState) : Option ScanState :=
  let r := advance_if src 61 s
  add_token src (if r.1 then .LessEqual else .Less) r.2

/-- The `advance_until` loop of `Scanner::comment`: skip to the newline
(which bumps `line` inside the closure and is left unconsumed) or to
end-of-input.  `fuel` only drives the recursion; call sites pass more fuel
than the loop can consume. -/
def commentSkip (src : List Nat) : Nat → ScanState → ScanState
  | 0, s => s
  | fuel + 1, s =>
    match peek src s false with
    | none => s
    | some c =>
      if c == 10 then {s with line := s.line + 1}
      else commentSkip src fuel {s with col := s.col + 1}

/-- `Scanner::comment`. -/
def comment (src : List Nat) (s : ScanState) : ScanState :=
  commentSkip src (src.length + 2) s

/-- The `advance_until` loop of `Scanner::identifier`: skip while the current
byte is alphanumeric. -/
def identifierSkip (src : List Nat) : Nat → ScanState → ScanState
  | 0, s => s
  | fuel + 1, s =>
    match peek src s false with
    | none => s
    | some c =>
      if isAlphanumeric c then identifierSkip src fuel {s with col := s.col + 1}
      else s

/-- `Scanner::identifier`: consume the alphanumeric run, decode the slice
`source[start..col]` (`unwrap` — a panic on invalid UTF-8), then look the
text up in the keyword table: a hit emits that keyword's kind, a miss emits
`Identifier` carrying the text as its literal. -/
def identifier (src : List Nat) (s : ScanState) : Option ScanState :=
  let s1 := identifierSkip src (src.length + 2) s
  match sliceOpt src s1.start s1.col with
  | none => none
  | some w =>
    if utf8Valid w then
      match keywordLookup w with
      | some tt => add_token src tt s1
      | none => add_token_literal src .Identifier (some (.Identifier w)) s1
    else none

/-- The `advance_until` loop of `Scanner::number`: skip digits, and a `.`
only when the byte after it is another digit. -/
def numberSkip (src : List Nat) : Nat → ScanState → ScanState
  | 0, s => s
  | fuel + 1, s =>
    match peek src s false with
    | none => s
    | some c =>
      if isDigit c then numberSkip src fuel {s with col := s.col + 1}
      else if c == 46 &&
          (match peek src s true with | some n => isDigit n | none => false) then
        numberSkip src fuel {s with col := s.col + 1}
      else s

/-- `Scanner::number`: consume the digit run (with at most the dot rule of
`numberSkip`), decode the slice, `parse::<f64>()` it (`unwrap` — a panic when
the span is not a valid float, e.g. `1.2.3`), and emit the `Number` token. -/
def number (src : List Nat) (s : ScanState) : Option ScanState :=
  let s1 := numberSkip src (src.length + 2) s
  match sliceOpt src s1.start s1.col with
  | none => none
  | some span =>
    if utf8Valid span then
      match parseNum span with
      | some v => add_token_literal src .Number (some (.Number v)) s1
      | none => none
    else none

/-- The `advance_until` loop of `Scanner::string`: bump `line` at embedded
newlines, fail with "Unterminated string." when the byte after the current
one is absent and the current one is not a quote, otherwise stop once
`advance_if('"')` consumes the closing quote. -/
def stringLoop (src : List Nat) : Nat → ScanState → ScanState × Option (List Nat)
  | 0, s => (s, none)
  | fuel + 1, s =>
    match peek src s false with
    | none => (s, none)
    | some c =>
      let s1 := if c == 10 then {s with line := s.line + 1} else s
      if (peek src s1 true).isNone && c != 34 then
        (s1, some (strBytes "Unterminated string."))
      else
        let r := advance_if src 34 s1
        if r.1 then (r.2, none)
        else stringLoop src fuel {r.2 with col := r.2.col + 1}

/-- `Scanner::string` (dispatched after the opening quote was consumed): on
loop failure record the diagnostic; on success slice
`source[start + 1 .. col - 1]` (a panic — `none` — when the range is
reversed, i.e. the opening quote was the final byte) and emit the `String`
token whose literal is the text strictly between the quotes. -/
def string (src : List Nat) (s : ScanState) : Option ScanState :=
  let r := stringLoop src (src.length + 2) s
  match r.2 with
  | some message => some (add_error src message r.1)
  | none =>
    match sliceOpt src (r.1.start + 1) (r.1.col - 1) with
    | none => none
    | some bs =>
      if utf8Valid bs then add_token_literal src .String (some (.String bs)) r.1
      else none

/-- The `advance_until` loop of `Scanner::block_comment`.  Returns the state
and the closure's `Err` payload if any.  The `*/` arm consumes both bytes and
stops; the `/*` arm consumes both bytes and runs a nested block comment
(whose own error, were it reachable, is reported immediately, as the nested
`block_comment()` call does); the end-of-input arm inside the closure is the
source's unreachable "Unterminated block comment." branch, kept verbatim. -/
def blockCommentLoop (src : List Nat) :
    Nat → ScanState → ScanState × Option (List Nat)
  | 0, s => (s, none)
  | fuel + 1, s =>
    match peek src s false with
    | none => (s, none)
    | some c =>
      if c == 10 then
        blockCommentLoop src fuel {s with line := s.line + 1, col := s.col + 1}
      else if c == 42 && peek src s true == some 47 then
        let s1 := {s with col := s.col + 1}
        let r := advance_if src 47 s1
        if r.1 then (r.2, none)
        else blockCommentLoop src fuel {r.2 with col := r.2.col + 1}
      else if c == 47 && peek src s true == some 42 then
        let s1 := {s with col := s.col + 2}
        let r := blockCommentLoop src fuel s1
        let s2 :=
          match r.2 with
          | some m => add_error src m r.1
          | none => r.1
        blockCommentLoop src fuel {s2 with col := s2.col + 1}
      else if (peek src s false).isNone then
        (s, some (strBytes "Unterminated block comment."))
      else blockCommentLoop src fuel {s with col := s.col + 1}

/-- `Scanner::block_comment`: run the loop and report its error, if any. -/
def blockComment (src : List Nat) (s : ScanState) : ScanState :=
  let r := blockCommentLoop src (src.length + 2) s
  match r.2 with
  | some m => add_error src m r.1
  | none => r.1

/-- `Scanner::slash`: line comment, block comment, or a `Slash` token. -/
def slash (src : List Nat) (s : ScanState) : Option ScanState :=
  let r1 := advance_if src 47 s
  if r1.1 then some (comment src r1.2)
  else
    let r2 := advance_if src 42 r1.2
    if r2.1 then some (blockComment src r2.2)
    else add_token src .Slash r2.2

/-- The `'\n'` entry of the `lex_func` table: bump the line counter only —
the column is untouched. -/
def newlineLexop (s : ScanState) : ScanState := {s with line := s.line + 1}

/-- `Scanner::scan_lexeme`: consume one byte (`advance().unwrap()` — a panic
when past the end) and dispatch through the `lex_func` table, falling back to
number, identifier, or the "Unexpected character." diagnostic. -/
def scanLexeme (src : List Nat) (s : ScanState) : Option ScanState :=
  match src.get? s.col with
  | none => none
  | some c =>
    let s1 := {s with col := s.col + 1}
    if c == 123 then left_brace src s1
    else if c == 125 then right_brace src s1
    else if c == 40 then left_paren src s1
    else if c == 41 then right_paren src s1
    else if c == 44 then comma src s1
    else if c == 46 then dot src s1
    else if c == 45 then minus src s1
    else if c == 43 then plus src s1
    else if c == 59 then semicolon src s1
    else if c == 42 then star src s1
    else if c == 34 then string src s1
    else if c == 32 || c == 13 || c == 9 then some s1
    else if c == 10 then some (newlineLexop s1)
    else if c == 33 then bang src s1
    else if c == 61 then equal src s1
    else if c == 62 then greater src s1
    else if c == 60 then lesser src s1
    else if c == 47 then slash src s1
    else if c == 63 then question src s1
    else if c == 58 then colon src s1
    else if isDigit c then number src s1
    else if isAsciiAlpha c then identifier src s1
    else some (add_error src (strBytes "Unexpected character.") s1)

/-- The main loop of `Scanner::scan_tokens`: while not at the end, set
`start := col` and scan one lexeme. -/
def scanLoop (src : List Nat) : Nat → ScanState → Option ScanState
  | 0, _ => none
  | fuel + 1, s =>
    if s.col < src.length then
      match scanLexeme src {s with start := s.col} with
      | none => none
      | some t => scanLoop src fuel t
    else some s

/-- `Scanner::default`'s mutable fields: empty outputs, `start = col = 0`,
`line = 1`. -/
def initState : ScanState := ⟨[], [], 0, 0, 1⟩

/-- `Scanner::scan_tokens` on a fresh scanner: the final scanner state
(`none` is a panic). -/
def runScanner (input : List Nat) : Option ScanState :=
  scanLoop input (input.length + 2) initState

/-- The free function `scan_tokens` of `src/scanner.rs`: builds a default
scanner, scans, reports errors to stdout (not modelled), and returns the
token vector unconditionally. -/
def scan_tokens (input : List Nat) : Option (List Token) :=
  (runScanner input).map (·.tokens)

/-- Modulus of `usize` arithmetic (64-bit target). -/
def usizeWidth : Nat := 2 ^ 64

/-- `usize::MAX`, the Marcher's before-first sentinel position. -/
def usizeMax : Nat := 2 ^ 64 - 1

/-- `Marcher<T>` from `src/marcher.rs`: the owned values plus the current
position, a `usize` kept as a `Nat` below `2 ^ 64`. -/
structure Marcher (T : Type) where
  values : List T
  curr : Nat
deriving DecidableEq

/-- `Marcher::new`: starts at `usize::MAX` so the first advance wraps to 0. -/
def Marcher.new {T : Type} (values : List T) : Marcher T := ⟨values, usizeMax⟩

/-- `Marcher::advance`: `curr.overflowing_add(offset)` — wrapping addition
modulo `2 ^ 64` — then read the element at the new position. -/
def Marcher.advance {T : Type} (m : Marcher T) (offset : Nat) :
    Option T × Marcher T :=
  let val := (m.curr + offset) % usizeWidth
  (m.values.get? val, {m with curr := val})

/-- `Marcher::peek`: wrapping add or subtract of a signed offset, read-only. -/
def Marcher.peek {T : Type} (m : Marcher T) (offset : Int) : Option T :=
  let pos :=
    if 0 ≤ offset then (m.curr + offset.toNat) % usizeWidth
    else (m.curr + (usizeWidth - offset.natAbs)) % usizeWidth
  m.values.get? pos

/-- `Marcher::advance_if`: consume and return the next element iff it
satisfies the predicate. -/
def Marcher.advance_if {T : Type} (m : Marcher T) (predicate : T → Bool) :
    Option T × Marcher T :=
  match m.peek 1 with
  | some t => if predicate t then m.advance 1 else (none, m)
  | none => (none, m)

/-- The type-erased `Box<dyn AnyDebug>` payloads that `Parser::primary`
actually boxes into `Lit`: a `bool`, an `Option<f64>` (from `as_number`), or
an `Option<String>` (from `as_string`). -/
inductive Boxed
  | bool (b : Bool)
  | optNum (v : Option F64)
  | optStr (v : Option (List Nat))
deriving DecidableEq

/-- AST from `src/expression.rs` (`Bin`, `Cond`, `Grp`, `Lit`, `Un`). -/
inductive Expr
  | Bin (left : Expr) (operator : Token) (right : Expr)
  | Cond (cond : Expr) (cons : Expr) (alt : Expr)
  | Grp (expression : Expr)
  | Lit (value : Option Boxed)
  | Un (operator : Token) (right : Expr)
deriving DecidableEq

/-- Rust `Debug` escaping for string contents (the common escapes). -/
def rustEscape (l : List Nat) : List Nat :=
  (l.map fun b =>
    if b == 34 then [92, 34]
    else if b == 92 then [92, 92]
    else if b == 10 then [92, 110]
    else if b == 13 then [92, 114]
    else if b == 9 then [92, 116]
    else [b]).flatten

/-- Rust `Debug` (`{:?}`) of the boxed value inside a `Lit`, as printed by
`impl Display for Lit`: `Option` values show as `Some(..)`/`None`. -/
def Boxed.debugFmt : Boxed → List Nat
  | .bool true => strBytes "true"
  | .bool false => strBytes "false"
  | .optNum (some v) => strBytes "Some(" ++ v.debugFmt ++ strBytes ")"
  | .optNum none => strBytes "None"
  | .optStr (some s) => strBytes "Some(\"" ++ rustEscape s ++ strBytes "\")"
  | .optStr none => strBytes "None"

/-- The `Display` rendering of the AST from `src/expression.rs`:
`(op left right)` for `Bin`, `(c ? k : a)` for `Cond`, `(grp e)` for `Grp`,
`(op right)` for `Un`, and for `Lit` the `Debug` of the boxed value or
`nil`. -/
def Expr.displayFmt : Expr → List Nat
  | .Bin l op r =>
    strBytes "(" ++ op.lexeme ++ strBytes " " ++ l.displayFmt ++ strBytes " " ++
      r.displayFmt ++ strBytes ")"
  | .Cond c k a =>
    strBytes "(" ++ c.displayFmt ++ strBytes " ? " ++ k.displayFmt ++
      strBytes " : " ++ a.displayFmt ++ strBytes ")"
  | .Grp e => strBytes "(grp " ++ e.displayFmt ++ strBytes ")"
  | .Lit (some v) => v.debugFmt
  | .Lit none => strBytes "nil"
  | .Un op r =>
    strBytes "(" ++ op.lexeme ++ strBytes " " ++ r.displayFmt ++ strBytes ")"

mutual

/-- `Parser::expression`: a ternary, then comma-separated re-parses at
equality precedence, keeping only the last operand. -/
def expression : Nat → Marcher Token → Option (Expr × Marcher Token)
  | 0, _ => none
  | fuel + 1, m =>
    match ternary fuel m with
    | none => none
    | some (e, m1) => expressionLoop fuel e m1

/-- The `while advance_if(Comma)` loop of `Parser::expression`. -/
def expressionLoop : Nat → Expr → Marcher Token → Option (Expr × Marcher Token)
  | 0, _, _ => none
  | fuel + 1, e, m =>
    match m.advance_if fun t => t.tokenType == .Comma with
    | (some _, m1) =>
      match equality fuel m1 with
      | none => none
      | some (e2, m2) => expressionLoop fuel e2 m2
    | (none, _) => some (e, m)

/-- `Parser::ternary`: an equality, then `? expression : expression`; a
missing `:` is `panic!("No alternate condition provided")` (`none`). -/
def ternary : Nat → Marcher Token → Option (Expr × Marcher Token)
  | 0, _ => none
  | fuel + 1, m =>
    match equality fuel m with
    | none => none
    | some (e, m1) =>
      match m1.advance_if fun t => t.tokenType == .Question with
      | (none, _) => some (e, m1)
      | (some _, mq) =>
        match expression fuel mq with
        | none => none
        | some (cons, m2) =>
          match m2.advance_if fun t => t.tokenType == .Colon with
          | (none, _) => none
          | (some _, mc) =>
            match expression fuel mc with
            | none => none
            | some (alt, m3) => some (.Cond e cons alt, m3)

/-- `Parser::equality`. -/
def equality : Nat → Marcher Token → Option (Expr × Marcher Token)
  | 0, _ => none
  | fuel + 1, m =>
    match comparison fuel m with
    | none => none
    | some (e, m1) => equalityLoop fuel e m1

/-- The `==`/`!=` folding loop of `Parser::equality` (left-associative). -/
def equalityLoop : Nat → Expr → Marcher Token → Option (Expr × Marcher Token)
  | 0, _, _ => none
  | fuel + 1, e, m =>
    match m.advance_if fun t =>
      t.tokenType == .BangEqual || t.tokenType == .EqualEqual with
    | (some op, m1) =>
      match comparison fuel m1 with
      | none => none
      | some (rhs, m2) => equalityLoop fuel (.Bin e op rhs) m2
    | (none, _) => some (e, m)

/-- `Parser::comparison`. -/
def comparison : Nat → Marcher Token → Option (Expr × Marcher Token)
  | 0, _ => none
  | fuel + 1, m =>
    match term fuel m with
    | none => none
    | some (e, m1) => comparisonLoop fuel e m1

/-- The `>`/`>=`/`<=`/`<` folding loop of `Parser::comparison`. -/
def comparisonLoop : Nat → Expr → Marcher Token → Option (Expr × Marcher Token)
  | 0, _, _ => none
  | fuel + 1, e, m =>
    match m.advance_if fun t =>
      t.tokenType == .Greater || t.tokenType == .GreaterEqual ||
      t.tokenType == .LessEqual || t.tokenType == .Less with
    | (some op, m1) =>
      match term fuel m1 with
      | none => none
      | some (rhs, m2) => comparisonLoop fuel (.Bin e op rhs) m2
    | (none, _) => some (e, m)

/-- `Parser::term`: `+`/`-` over factors. -/
def term : Nat → Marcher Token → Option (Expr × Marcher Token)
  | 0, _ => none
  | fuel + 1, m =>
    match factor fuel m with
    | none => none
    | some (e, m1) => termLoop fuel e m1

/-- The `+`/`-` folding loop of `Parser::term`. -/
def termLoop : Nat → Expr → Marcher Token → Option (Expr × Marcher Token)
  | 0, _, _ => none
  | fuel + 1, e, m =>
    match m.advance_if fun t =>
      t.tokenType == .Plus || t.tokenType == .Minus with
    | (some op, m1) =>
      match factor fuel m1 with
      | none => none
      | some (rhs, m2) => termLoop fuel (.Bin e op rhs) m2
    | (none, _) => some (e, m)

/-- `Parser::factor`: `*`/`/` over unaries. -/
def factor : Nat → Marcher Token → Option (Expr × Marcher Token)
  | 0, _ => none
  | fuel + 1, m =>
    match unary fuel m with
    | none => none
    | some (e, m1) => factorLoop fuel e m1

/-- The `*`/`/` folding loop of `Parser::factor`. -/
def factorLoop : Nat → Expr → Marcher Token → Option (Expr × Marcher Token)
  | 0, _, _ => none
  | fuel + 1, e, m =>
    match m.advance_if fun t =>
      t.tokenType == .Slash || t.tokenType == .Star with
    | (some op, m1) =>
      match unary fuel m1 with
      | none => none
      | some (rhs, m2) => factorLoop fuel (.Bin e op rhs) m2
    | (none, _) => some (e, m)

/-- `Parser::unary`: a prefix `!`/`-` wraps a recursive unary, otherwise a
primary. -/
def unary : Nat → Marcher Token → Option (Expr × Marcher Token)
  | 0, _ => none
  | fuel + 1, m =>
    match m.advance_if fun t =>
      t.tokenType == .Bang || t.tokenType == .Minus with
    | (some op, m1) =>
      match unary fuel m1 with
      | none => none
      | some (e, m2) => some (.Un op e, m2)
    | (none, _) => primary fuel m

/-- `Parser::primary`: `true`, `nil`, a `String`/`Number` literal (boxing
`as_string`/`as_number` — `literal.unwrap()` is a panic when absent), or a
parenthesized expression whose `)` is mandatory.  Any other next token is
`panic!("Invalid token to start an expression.")` (`none`).  Note the source
accepts `True` but not `False` here. -/
def primary : Nat → Marcher Token → Option (Expr × Marcher Token)
  | 0, _ => none
  | fuel + 1, m =>
    match m.advance_if fun t =>
      t.tokenType == .True || t.tokenType == .Nil || t.tokenType == .String ||
      t.tokenType == .Number || t.tokenType == .LeftParen with
    | (none, _) => none
    | (some t, m1) =>
      match t.tokenType with
      | .True => some (.Lit (some (.bool true)), m1)
      | .Nil => some (.Lit none, m1)
      | .String =>
        match t.literal with
        | some l => some (.Lit (some (.optStr l.as_string)), m1)
        | none => none
      | .Number =>
        match t.literal with
        | some l => some (.Lit (some (.optNum l.as_number)), m1)
        | none => none
      | .LeftParen =>
        match expression fuel m1 with
        | none => none
        | some (e, m2) =>
          match m2.advance_if fun t => t.tokenType == .RightParen with
          | (none, _) => none
          | (some _, m3) => some (.Grp e, m3)
      | _ => some (.Lit none, m1)

end

/-- The free function `parse` of `src/parser.rs`: run `expression` on a fresh
`Marcher` over the tokens.  The fuel bounds the recursion depth; it exceeds
what the grammar can consume on the given tokens. -/
def parse (tokens : List Token) : Option Expr :=
  (expression (8 * tokens.length + 8) (Marcher.new tokens)).map (·.1)

/-- The maximal alphanumeric run of the source starting at byte offset `i`
(the span `Scanner::identifier` consumes when dispatched at `i`). -/
def maxAlnumRun (src : List Nat) (i : Nat) : List Nat :=
  (src.drop i).takeWhile isAlphanumeric

/-- The token kinds whose lexeme comes from the literal rather than the
source slice in `add_token_literal`. -/
def isLiteralKind : TokenType → Bool
  | .String | .Number | .Identifier => true
  | _ => false

/-- The textual rendering of a token sequence: each token rendered as its
lexeme (its `Display`), whitespace-separated. -/
def renderTokens : List Token → List Nat
  | [] => []
  | [t] => t.lexeme
  | t :: ts => t.lexeme ++ [32] ++ renderTokens ts

/-- The lexeme shapes the scanner can attach to each token kind (`String`
excluded): fixed spellings for punctuation, operators and keywords; an
alphanumeric run starting with an ASCII letter that misses the keyword table
for `Identifier`; a formatted `f64` for `Number`. -/
def cleanLex : TokenType → List Nat → Prop
  | .LeftParen, w => w = strBytes "("
  | .RightParen, w => w = strBytes ")"
  | .LeftBrace, w => w = strBytes "\x7b"
  | .RightBrace, w => w = strBytes "\x7d"
  | .Comma, w => w = strBytes ","
  | .Dot, w => w = strBytes "."
  | .Semicolon, w => w = strBytes ";"
  | .Minus, w => w = strBytes "-"
  | .Plus, w => w = strBytes "+"
  | .Slash, w => w = strBytes "/"
  | .Star, w => w = strBytes "*"
  | .Bang, w => w = strBytes "!"
  | .BangEqual, w => w = strBytes "!="
  | .Equal, w => w = strBytes "="
  | .EqualEqual, w => w = strBytes "=="
  | .Greater, w => w = strBytes ">"
  | .GreaterEqual, w => w = strBytes ">="
  | .Less, w => w = strBytes "<"
  | .LessEqual, w => w = strBytes "<="
  | .Question, w => w = strBytes "?"
  | .Colon, w => w = strBytes ":"
  | .And, w => w = strBytes "and"
  | .Class, w => w = strBytes "class"
  | .Else, w => w = strBytes "else"
  | .False, w => w = strBytes "false"
  | .Fun, w => w = strBytes "fun"
  | .For, w => w = strBytes "for"
  | .If, w => w = strBytes "if"
  | .Nil, w => w = strBytes "nil"
  | .Or, w => w = strBytes "or"
  | .Print, w => w = strBytes "print"
  | .Return, w => w = strBytes "return"
  | .Super, w => w = strBytes "super"
  | .This, w => w = strBytes "this"
  | .True, w => w = strBytes "true"
  | .Var, w => w = strBytes "var"
  | .While, w => w = strBytes "while"
  | .Eof, w => w = strBytes "eof"
  | .Identifier, w => (∃ b r, w = b :: r ∧ isAsciiAlpha b = true) ∧
      (∀ x ∈ w, isAlphanumeric x = true) ∧ utf8Valid w = true ∧
      keywordLookup w = none
  | .Number, w => ∃ v : F64, w = v.display
  | .String, _ => False

/-- One scanner step from `s` to `t` is well-behaved for column tracking:
the column never moves backwards and the tokens appended during the step
carry columns between the step's start and end columns, in non-decreasing
order. -/
def stepOK (s t : ScanState) : Prop :=
  s.col ≤ t.col ∧ ∃ new, t.tokens = s.tokens ++ new ∧
    (new.map Token.col).Chain' (· ≤ ·) ∧
    ∀ tk ∈ new, s.col ≤ tk.col ∧ tk.col ≤ t.col

/-- Column invariant of the scanner state: recorded token columns are
non-decreasing and bounded by the current column. -/
def colInv (s : ScanState) : Prop :=
  (s.tokens.map Token.col).Chain' (· ≤ ·) ∧ ∀ tk ∈ s.tokens, tk.col ≤ s.col

/-- `peek` without the extra offset reads the current byte. -/
theorem peek_false (src : List Nat) (s : ScanState) :
    peek src s false = src.get? s.col := rfl

/-- `peek` with the extra offset reads one byte ahead. -/
theorem peek_true (src : List Nat) (s : ScanState) :
    peek src s true = src.get? (s.col + 1) := rfl

/-- Reading `some a` at index `n` exposes the drop as a cons. -/
theorem get?_drop_cons {l : List Nat} {n : Nat} {a : Nat}
    (h : l.get? n = some a) : l.drop n = a :: l.drop (n + 1) := by
  have hn : n < l.length := (List.get?_eq_some.mp h).1
  rw [List.drop_eq_getElem_cons hn]
  simp only [List.get?_eq_getElem?, List.getElem?_eq_getElem hn] at h
  simp_all

/-- ASCII byte lists are valid UTF-8. -/
theorem utf8Valid_ascii : ∀ l : List Nat, (∀ x ∈ l, x < 128) → utf8Valid l = true := by
  intro l h
  induction l with
  | nil => rfl
  | cons b t ih =>
    have hb : b < 0x80 := h b (List.mem_cons_self b t)
    have hc : utf8HeadClass b = (0, 0, 0) := by unfold utf8HeadClass; rw [if_pos hb]
    simp only [utf8Valid, hc]
    exact ih fun x hx => h x (List.mem_cons_of_mem b hx)

/-- `identifierSkip` consumes exactly the remaining alphanumeric run when
the fuel is adequate. -/
theorem identifierSkip_spec (src : List Nat) :
    ∀ fuel (s : ScanState), src.length ≤ s.col + fuel →
      identifierSkip src fuel s =
        {s with col := s.col + ((src.drop s.col).takeWhile isAlphanumeric).length} := by
  intro fuel
  induction fuel with
  | zero =>
    intro s hs
    have hd : src.drop s.col = [] := List.drop_eq_nil_of_le (by omega)
    simp only [identifierSkip]
    simp [hd]
  | succ fuel ih =>
    intro s hs
    cases hg : src.get? s.col with
    | none =>
      have hd : src.drop s.col = [] :=
        List.drop_eq_nil_of_le (List.get?_eq_none.mp hg)
      simp only [identifierSkip, peek_false, hg]
      simp [hd]
    | some c =>
      have hd : src.drop s.col = c :: src.drop (s.col + 1) := get?_drop_cons hg
      simp only [identifierSkip, peek_false, hg]
      by_cases hc : isAlphanumeric c = true
      · rw [if_pos hc, ih {s with col := s.col + 1}
          (by show src.length ≤ s.col + 1 + fuel; omega)]
        simp [hd, List.takeWhile_cons, hc]
        omega
      · rw [if_neg hc]
        simp [hd, List.takeWhile_cons, hc]

/-- When the current byte is an ASCII letter, `scan_lexeme` dispatches to
`Scanner::identifier` after consuming it. -/
theorem scanLexeme_alpha (src : List Nat) (s : ScanState) (b : Nat)
    (hb : src.get? s.col = some b) (hba : isAsciiAlpha b = true) :
    scanLexeme src s = identifier src {s with col := s.col + 1} := by
  have h1 : (65 ≤ b ∧ b ≤ 90) ∨ (97 ≤ b ∧ b ≤ 122) := by
    simp only [isAsciiAlpha, Bool.or_eq_true, Bool.and_eq_true,
      decide_eq_true_eq] at hba
    exact hba
  have h2 : 65 ≤ b ∧ b ≤ 122 := by rcases h1 with ⟨h, h'⟩ | ⟨h, h'⟩ <;> omega
  have hdig : isDigit b = false := by
    simp only [isDigit, Bool.and_eq_false_iff, decide_eq_false_iff_not]
    omega
  have hne : ∀ k : Nat, b ≠ k → (b == k) = false := fun k hk =>
    beq_eq_false_iff_ne.mpr hk
  simp only [scanLexeme, hb, hne 123 (by omega), hne 125 (by omega),
    hne 40 (by omega), hne 41 (by omega), hne 44 (by omega), hne 46 (by omega),
    hne 45 (by omega), hne 43 (by omega), hne 59 (by omega), hne 42 (by omega),
    hne 34 (by omega), hne 32 (by omega), hne 13 (by omega), hne 9 (by omega),
    hne 10 (by omega), hne 33 (by omega), hne 61 (by omega), hne 62 (by omega),
    hne 60 (by omega), hne 47 (by omega), hne 63 (by omega), hne 58 (by omega),
    hdig, hba, Bool.false_eq_true, if_false, Bool.or_self, if_true]

/-- A keyword-table hit never yields a literal-lexeme kind. -/
theorem keywordLookup_not_literal {w : List Nat} {tt : TokenType}
    (h : keywordLookup w = some tt) : isLiteralKind tt = false := by
  unfold keywordLookup at h
  cases hf : keywords.find? fun p => p.1 == w with
  | none => rw [hf] at h; cases h
  | some p =>
    rw [hf] at h
    have hmem : p ∈ keywords := List.mem_of_find?_eq_some hf
    have hall : ∀ q ∈ keywords, isLiteralKind q.2 = false := by decide
    have : p.2 = tt := by simpa using h
    rw [← this]
    exact hall p hmem

/-- `add_token` for a non-literal kind records the consumed slice as the
lexeme. -/
theorem add_token_slice (src : List Nat) (s : ScanState) (tt : TokenType)
    (w : List Nat) (htt : isLiteralKind tt = false)
    (hs : sliceOpt src s.start s.col = some w) (hv : utf8Valid w = true) :
    add_token src tt s =
      some {s with tokens := s.tokens ++ [⟨tt, w, s.line, s.col, none⟩]} := by
  cases tt <;> simp_all [isLiteralKind, add_token, add_token_literal]

/-- Core lexing fact behind C3 and the round-trip development: dispatched at
an ASCII letter, the scanner consumes the maximal alphanumeric run; a keyword
hit emits that keyword's kind with no literal, a miss emits `Identifier`
carrying the run as its literal value. -/
theorem identifier_run_spec (src : List Nat) (s : ScanState) (b : Nat)
    (hstart : s.start = s.col) (hb : src.get? s.col = some b)
    (hba : isAsciiAlpha b = true)
    (hv : utf8Valid (maxAlnumRun src s.col) = true) :
    scanLexeme src s = some {s with
      col := s.col + (maxAlnumRun src s.col).length,
      tokens := s.tokens ++ [⟨(keywordLookup (maxAlnumRun src s.col)).getD .Identifier,
        maxAlnumRun src s.col, s.line, s.col + (maxAlnumRun src s.col).length,
        (keywordLookup (maxAlnumRun src s.col)).elim
          (some (.Identifier (maxAlnumRun src s.col))) (fun _ => none)⟩]} := by
  have hcl : s.col < src.length := (List.get?_eq_some.mp hb).1
  have hbal : isAlphanumeric b = true := by
    simp [isAlphanumeric, hba]
  have hd : src.drop s.col = b :: src.drop (s.col + 1) := get?_drop_cons hb
  have hrun : maxAlnumRun src s.col =
      b :: (src.drop (s.col + 1)).takeWhile isAlphanumeric := by
    unfold maxAlnumRun
    rw [hd]
    simp [List.takeWhile_cons, hbal]
  have hrunlen : (maxAlnumRun src s.col).length ≤ src.length - s.col := by
    have := (List.takeWhile_prefix (l := src.drop s.col) isAlphanumeric).length_le
    simpa [maxAlnumRun] using this
  have hslice : sliceOpt src s.col (s.col + (maxAlnumRun src s.col).length) =
      some (maxAlnumRun src s.col) := by
    unfold sliceOpt
    rw [if_pos (by constructor <;> omega)]
    obtain ⟨t, ht⟩ := List.takeWhile_prefix (l := src.drop s.col) isAlphanumeric
    congr 1
    have : s.col + (maxAlnumRun src s.col).length - s.col =
        (maxAlnumRun src s.col).length := by omega
    rw [this, ← ht]
    exact List.take_left _ _
  rw [scanLexeme_alpha src s b hb hba]
  unfold identifier
  rw [identifierSkip_spec src (src.length + 2) {s with col := s.col + 1}
    (by show src.length ≤ s.col + 1 + (src.length + 2); omega)]
  have hcol : s.col + 1 + ((src.drop (s.col + 1)).takeWhile isAlphanumeric).length =
      s.col + (maxAlnumRun src s.col).length := by
    rw [hrun]
    simp
    omega
  simp only [show ({s with col := s.col + 1} : ScanState).col = s.col + 1 from rfl,
    show ({s with col := s.col + 1} : ScanState).start = s.start from rfl]
  rw [hstart]
  simp only [hcol]
  rw [hslice]
  simp only [hv, if_true]
  cases hk : keywordLookup (maxAlnumRun src s.col) with
  | some tt =>
    exact add_token_slice src
      {s with start := s.col, col := s.col + (maxAlnumRun src s.col).length} tt
      (maxAlnumRun src s.col) (keywordLookup_not_literal hk) hslice hv
  | none =>
    simp [add_token_literal, Literal.displayFmt]

/-- C3 (amended): dispatched at an ASCII letter, the scanner consumes the
maximal alphanumeric run; when the run equals one of the seventeen keyword
texts of the table (`and class else false fun for if nil or print return
super this true var while eof`) it emits that keyword's token kind with no
literal, and otherwise it emits an `Identifier` token carrying the run as
its literal value — case-sensitively, so `THIS` is an `Identifier`. -/
theorem c3_keyword_or_identifier (src : List Nat) (s : ScanState) (b : Nat)
    (hstart : s.start = s.col) (hb : src.get? s.col = some b)
    (hba : isAsciiAlpha b = true)
    (hascii : ∀ x ∈ maxAlnumRun src s.col, x < 128) :
    scanLexeme src s = some {s with
      col := s.col + (maxAlnumRun src s.col).length,
      tokens := s.tokens ++ [⟨(keywordLookup (maxAlnumRun src s.col)).getD .Identifier,
        maxAlnumRun src s.col, s.line, s.col + (maxAlnumRun src s.col).length,
        (keywordLookup (maxAlnumRun src s.col)).elim
          (some (.Identifier (maxAlnumRun src s.col))) (fun _ => none)⟩]} :=
  identifier_run_spec src s b hstart hb hba (utf8Valid_ascii _ hascii)

/-- C3 witness: instantiating the amended claim at concrete inputs — `or`
scans to the `Or` keyword kind, and `THIS` (not a keyword, case-sensitively)
scans to an `Identifier` carrying its text. -/
theorem c3_keyword_or_identifier_witness :
    (scanLexeme (strBytes "or") initState = some
      {initState with col := 2, tokens := [⟨.Or, strBytes "or", 1, 2, none⟩]}) ∧
    (scanLexeme (strBytes "THIS") initState = some
      {initState with col := 4, tokens :=
        [⟨.Identifier, strBytes "THIS", 1, 4, some (.Identifier (strBytes "THIS"))⟩]}) := by
  constructor
  · have h := c3_keyword_or_identifier (strBytes "or") initState 111 rfl
      (by decide) (by decide) (by decide)
    rw [h]
    decide
  · have h := c3_keyword_or_identifier (strBytes "THIS") initState 84 rfl
      (by decide) (by decide) (by decide)
    rw [h]
    decide

theorem stepOK_same_tokens {s t : ScanState} (ht : t.tokens = s.tokens)
    (hc : s.col ≤ t.col) : stepOK s t :=
  ⟨hc, [], by simp [ht], by simp, by simp⟩

theorem stepOK_rfl (s : ScanState) : stepOK s s := stepOK_same_tokens rfl le_rfl

theorem stepOK_add {s t : ScanState} (tok : Token)
    (he : t.tokens = s.tokens ++ [tok]) (h1 : s.col ≤ tok.col)
    (h2 : tok.col ≤ t.col) (hc : s.col ≤ t.col) : stepOK s t :=
  ⟨hc, [tok], he, by simp, by simp [h1, h2]⟩

theorem stepOK_trans {s t u : ScanState} (h1 : stepOK s t) (h2 : stepOK t u) :
    stepOK s u := by
  obtain ⟨hc1, n1, he1, hch1, hb1⟩ := h1
  obtain ⟨hc2, n2, he2, hch2, hb2⟩ := h2
  refine ⟨le_trans hc1 hc2, n1 ++ n2,
    by rw [he2, he1, List.append_assoc], ?_, ?_⟩
  · rw [List.map_append, List.chain'_append]
    refine ⟨hch1, hch2, ?_⟩
    intro x hx y hy
    obtain ⟨tk1, htk1, rfl⟩ := List.exists_of_mem_map
      (List.mem_of_mem_getLast? hx)
    obtain ⟨tk2, htk2, rfl⟩ := List.exists_of_mem_map
      (List.mem_of_mem_head? hy)
    exact le_trans (hb1 tk1 htk1).2 (hb2 tk2 htk2).1
  · intro tk htk
    rcases List.mem_append.mp htk with hmem | hmem
    · exact ⟨(hb1 tk hmem).1, le_trans (hb1 tk hmem).2 hc2⟩
    · exact ⟨le_trans hc1 (hb2 tk hmem).1, (hb2 tk hmem).2⟩

theorem add_token_literal_some {src : List Nat} {k : TokenType}
    {lit : Option Literal} {s t : ScanState}
    (h : add_token_literal src k lit s = some t) :
    ∃ lex, t = {s with tokens := s.tokens ++ [⟨k, lex, s.line, s.col, lit⟩]} := by
  unfold add_token_literal at h
  rw [Option.map_eq_some'] at h
  obtain ⟨lex, _, hf⟩ := h
  exact ⟨lex, hf.symm⟩

theorem add_token_stepOK {src : List Nat} {k : TokenType}
    {lit : Option Literal} {s t : ScanState}
    (h : add_token_literal src k lit s = some t) : stepOK s t := by
  obtain ⟨lex, rfl⟩ := add_token_literal_some h
  exact stepOK_add ⟨k, lex, s.line, s.col, lit⟩ rfl le_rfl le_rfl le_rfl

theorem advance_if_shape (src : List Nat) (e : Nat) (s : ScanState) :
    (advance_if src e s).2 = s ∨
    (advance_if src e s).2 = {s with col := s.col + 1} := by
  unfold advance_if
  cases peek src s false with
  | none => simp
  | some c => by_cases hc : (c == e) = true <;> simp [hc]

theorem op2_stepOK {src : List Nat} {e : Nat} {s t : ScanState}
    {k1 k2 : TokenType}
    (h : add_token src (if (advance_if src e s).1 then k1 else k2)
      (advance_if src e s).2 = some t) : stepOK s t := by
  rcases advance_if_shape src e s with ha | ha <;> rw [ha] at h
  · exact add_token_stepOK h
  · refine stepOK_trans ?_ (add_token_stepOK h)
    exact stepOK_same_tokens rfl (Nat.le_succ s.col)

theorem commentSkip_shape (src : List Nat) :
    ∀ fuel (s : ScanState), (commentSkip src fuel s).tokens = s.tokens ∧
      s.col ≤ (commentSkip src fuel s).col := by
  intro fuel
  induction fuel with
  | zero => intro s; exact ⟨rfl, le_rfl⟩
  | succ fuel ih =>
    intro s
    simp only [commentSkip, peek_false]
    split
    · exact ⟨rfl, le_rfl⟩
    · split
      · exact ⟨rfl, le_rfl⟩
      · obtain ⟨h1, h2⟩ := ih {s with col := s.col + 1}
        exact ⟨h1, Nat.le_trans (Nat.le_add_right s.col 1) h2⟩

theorem identifierSkip_shape (src : List Nat) :
    ∀ fuel (s : ScanState), (identifierSkip src fuel s).tokens = s.tokens ∧
      s.col ≤ (identifierSkip src fuel s).col := by
  intro fuel
  induction fuel with
  | zero => intro s; exact ⟨rfl, le_rfl⟩
  | succ fuel ih =>
    intro s
    simp only [identifierSkip, peek_false]
    split
    · exact ⟨rfl, le_rfl⟩
    · split
      · obtain ⟨h1, h2⟩ := ih {s with col := s.col + 1}
        exact ⟨h1, Nat.le_trans (Nat.le_add_right s.col 1) h2⟩
      · exact ⟨rfl, le_rfl⟩

theorem numberSkip_shape (src : List Nat) :
    ∀ fuel (s : ScanState), (numberSkip src fuel s).tokens = s.tokens ∧
      s.col ≤ (numberSkip src fuel s).col := by
  intro fuel
  induction fuel with
  | zero => intro s; exact ⟨rfl, le_rfl⟩
  | succ fuel ih =>
    intro s
    simp only [numberSkip, peek_false]
    split
    · exact ⟨rfl, le_rfl⟩
    · split
      · obtain ⟨h1, h2⟩ := ih {s with col := s.col + 1}
        exact ⟨h1, Nat.le_trans (Nat.le_add_right s.col 1) h2⟩
      · split
        · obtain ⟨h1, h2⟩ := ih {s with col := s.col + 1}
          exact ⟨h1, Nat.le_trans (Nat.le_add_right s.col 1) h2⟩
        · exact ⟨rfl, le_rfl⟩


theorem advance_if_tokens (src : List Nat) (e : Nat) (s : ScanState) :
    (advance_if src e s).2.tokens = s.tokens := by
  unfold advance_if
  cases peek src s false with
  | none => rfl
  | some c => by_cases h : (c == e) = true <;> simp [h]

theorem advance_if_col_le (src : List Nat) (e : Nat) (s : ScanState) :
    s.col ≤ (advance_if src e s).2.col := by
  unfold advance_if
  cases peek src s false with
  | none => exact le_rfl
  | some c => by_cases h : (c == e) = true <;> simp [h]

theorem advance_if_col_ub (src : List Nat) (e : Nat) (s : ScanState) :
    (advance_if src e s).2.col ≤ s.col + 1 := by
  unfold advance_if
  cases peek src s false with
  | none => exact Nat.le_succ s.col
  | some c => by_cases h : (c == e) = true <;> simp [h]

theorem stringLoop_shape (src : List Nat) :
    ∀ fuel (s : ScanState), (stringLoop src fuel s).1.tokens = s.tokens ∧
      s.col ≤ (stringLoop src fuel s).1.col := by
  intro fuel
  induction fuel with
  | zero => intro s; exact ⟨rfl, le_rfl⟩
  | succ fuel ih =>
    intro s
    simp only [stringLoop, peek_false]
    split
    · exact ⟨rfl, le_rfl⟩
    · split
      · split
        · exact ⟨rfl, le_rfl⟩
        · split
          · exact ⟨advance_if_tokens src 34 {s with line := s.line + 1},
              advance_if_col_le src 34 {s with line := s.line + 1}⟩
          · have hX := ih
              {(advance_if src 34 ({s with line := s.line + 1} : ScanState)).2 with
                col := (advance_if src 34
                  ({s with line := s.line + 1} : ScanState)).2.col + 1}
            refine ⟨(hX.1).trans
              (advance_if_tokens src 34 {s with line := s.line + 1}), ?_⟩
            exact Nat.le_trans
              (advance_if_col_le src 34 {s with line := s.line + 1})
              (Nat.le_trans (Nat.le_succ _) hX.2)
      · split
        · exact ⟨rfl, le_rfl⟩
        · split
          · exact ⟨advance_if_tokens src 34 s, advance_if_col_le src 34 s⟩
          · have hX := ih
              {(advance_if src 34 s).2 with
                col := (advance_if src 34 s).2.col + 1}
            refine ⟨(hX.1).trans (advance_if_tokens src 34 s), ?_⟩
            exact Nat.le_trans (advance_if_col_le src 34 s)
              (Nat.le_trans (Nat.le_succ _) hX.2)


theorem blockCommentLoop_shape (src : List Nat) :
    ∀ fuel (s : ScanState),
      (blockCommentLoop src fuel s).1.tokens = s.tokens ∧
      s.col ≤ (blockCommentLoop src fuel s).1.col := by
  intro fuel
  induction fuel with
  | zero => intro s; exact ⟨rfl, le_rfl⟩
  | succ fuel ih =>
    intro s
    simp only [blockCommentLoop, peek_false, peek_true]
    split
    · exact ⟨rfl, le_rfl⟩
    · split
      · exact ⟨(ih {s with line := s.line + 1, col := s.col + 1}).1,
          Nat.le_trans (Nat.le_add_right s.col 1)
            (ih {s with line := s.line + 1, col := s.col + 1}).2⟩
      · split
        · split
          · exact ⟨advance_if_tokens src 47 {s with col := s.col + 1},
              Nat.le_trans (Nat.le_add_right s.col 1)
                (advance_if_col_le src 47 {s with col := s.col + 1})⟩
          · have hX := ih
              {(advance_if src 47 ({s with col := s.col + 1} : ScanState)).2 with
                col := (advance_if src 47
                  ({s with col := s.col + 1} : ScanState)).2.col + 1}
            refine ⟨(hX.1).trans
              (advance_if_tokens src 47 {s with col := s.col + 1}), ?_⟩
            exact Nat.le_trans (Nat.le_add_right s.col 1)
              (Nat.le_trans (advance_if_col_le src 47 {s with col := s.col + 1})
                (Nat.le_trans (Nat.le_succ _) hX.2))
        · split
          · split
            · rename_i m hm
              have hI := ih {s with col := s.col + 2}
              have hX := ih
                {(add_error src m (blockCommentLoop src fuel
                    ({s with col := s.col + 2} : ScanState)).1) with
                  col := (add_error src m (blockCommentLoop src fuel
                    ({s with col := s.col + 2} : ScanState)).1).col + 1}
              refine ⟨(hX.1).trans hI.1, ?_⟩
              exact Nat.le_trans (Nat.le_add_right s.col 2)
                (Nat.le_trans hI.2 (Nat.le_trans (Nat.le_succ _) hX.2))
            · have hI := ih {s with col := s.col + 2}
              have hX := ih
                {(blockCommentLoop src fuel
                    ({s with col := s.col + 2} : ScanState)).1 with
                  col := (blockCommentLoop src fuel
                    ({s with col := s.col + 2} : ScanState)).1.col + 1}
              refine ⟨(hX.1).trans hI.1, ?_⟩
              exact Nat.le_trans (Nat.le_add_right s.col 2)
                (Nat.le_trans hI.2 (Nat.le_trans (Nat.le_succ _) hX.2))
          · split
            · exact ⟨rfl, le_rfl⟩
            · exact ⟨(ih {s with col := s.col + 1}).1,
                Nat.le_trans (Nat.le_add_right s.col 1)
                  (ih {s with col := s.col + 1}).2⟩


theorem advance_if_stepOK (src : List Nat) (e : Nat) (s : ScanState) :
    stepOK s (advance_if src e s).2 :=
  stepOK_same_tokens (advance_if_tokens src e s) (advance_if_col_le src e s)

theorem comment_stepOK (src : List Nat) (s : ScanState) :
    stepOK s (comment src s) :=
  stepOK_same_tokens (commentSkip_shape src (src.length + 2) s).1
    (commentSkip_shape src (src.length + 2) s).2

theorem blockComment_stepOK (src : List Nat) (s : ScanState) :
    stepOK s (blockComment src s) := by
  unfold blockComment
  cases hE : (blockCommentLoop src (src.length + 2) s).2 with
  | none =>
    simp only [hE]
    exact stepOK_same_tokens (blockCommentLoop_shape src (src.length + 2) s).1
      (blockCommentLoop_shape src (src.length + 2) s).2
  | some m =>
    simp only [hE]
    exact stepOK_same_tokens (blockCommentLoop_shape src (src.length + 2) s).1
      (blockCommentLoop_shape src (src.length + 2) s).2

theorem slash_stepOK {src : List Nat} {s t : ScanState}
    (h : slash src s = some t) : stepOK s t := by
  unfold slash at h
  dsimp only at h
  split at h
  · cases h
    exact stepOK_trans (advance_if_stepOK src 47 s) (comment_stepOK src _)
  · split at h
    · cases h
      exact stepOK_trans (advance_if_stepOK src 47 s)
        (stepOK_trans (advance_if_stepOK src 42 _) (blockComment_stepOK src _))
    · exact stepOK_trans (advance_if_stepOK src 47 s)
        (stepOK_trans (advance_if_stepOK src 42 _) (add_token_stepOK h))

theorem string_stepOK {src : List Nat} {s t : ScanState}
    (h : string src s = some t) : stepOK s t := by
  unfold string at h
  dsimp only at h
  split at h
  · cases h
    exact stepOK_same_tokens (stringLoop_shape src (src.length + 2) s).1
      (stringLoop_shape src (src.length + 2) s).2
  · split at h
    · cases h
    · split at h
      · refine stepOK_trans ?_ (add_token_stepOK h)
        exact stepOK_same_tokens (stringLoop_shape src (src.length + 2) s).1
          (stringLoop_shape src (src.length + 2) s).2
      · cases h

theorem identifier_stepOK {src : List Nat} {s t : ScanState}
    (h : identifier src s = some t) : stepOK s t := by
  unfold identifier at h
  dsimp only at h
  split at h
  · cases h
  · split at h
    · split at h
      · refine stepOK_trans ?_ (add_token_stepOK h)
        exact stepOK_same_tokens (identifierSkip_shape src (src.length + 2) s).1
          (identifierSkip_shape src (src.length + 2) s).2
      · refine stepOK_trans ?_ (add_token_stepOK h)
        exact stepOK_same_tokens (identifierSkip_shape src (src.length + 2) s).1
          (identifierSkip_shape src (src.length + 2) s).2
    · cases h

theorem number_stepOK {src : List Nat} {s t : ScanState}
    (h : number src s = some t) : stepOK s t := by
  unfold number at h
  dsimp only at h
  split at h
  · cases h
  · split at h
    · split at h
      · refine stepOK_trans ?_ (add_token_stepOK h)
        exact stepOK_same_tokens (numberSkip_shape src (src.length + 2) s).1
          (numberSkip_shape src (src.length + 2) s).2
      · cases h
    · cases h


/- ### Round-trip development: digit-string facts -/

theorem natDigitsGo_all_digit : ∀ fuel n, ∀ x ∈ natDigitsGo fuel n, isDigit x = true := by
  intro fuel
  induction fuel with
  | zero => intro n x hx; cases hx
  | succ fuel ih =>
    intro n x hx
    simp only [natDigitsGo] at hx
    by_cases h : n < 10
    · rw [if_pos h] at hx
      simp only [List.mem_singleton] at hx
      subst hx
      simp only [isDigit, Bool.and_eq_true, decide_eq_true_eq]
      omega
    · rw [if_neg h] at hx
      rcases List.mem_append.mp hx with hm | hm
      · exact ih (n / 10) x hm
      · simp only [List.mem_singleton] at hm
        subst hm
        have : n % 10 < 10 := Nat.mod_lt _ (by omega)
        simp only [isDigit, Bool.and_eq_true, decide_eq_true_eq]
        omega

theorem natDigitsGo_ne_nil : ∀ fuel n, natDigitsGo (fuel + 1) n ≠ [] := by
  intro fuel n
  simp only [natDigitsGo]
  by_cases h : n < 10
  · rw [if_pos h]; simp
  · rw [if_neg h]; simp

theorem natDigits_all_digit (n : Nat) : ∀ x ∈ natDigits n, isDigit x = true :=
  natDigitsGo_all_digit (n + 1) n

theorem natDigits_ne_nil (n : Nat) : natDigits n ≠ [] := natDigitsGo_ne_nil n n

theorem natDigitsPad_all_digit (k n : Nat) : ∀ x ∈ natDigitsPad k n, isDigit x = true := by
  intro x hx
  simp only [natDigitsPad] at hx
  rcases List.mem_append.mp hx with hm | hm
  · have := List.eq_of_mem_replicate hm
    subst this
    decide
  · exact natDigits_all_digit n x hm

theorem natDigitsPad_ne_nil (k n : Nat) : natDigitsPad k n ≠ [] := by
  simp only [natDigitsPad]
  intro h
  exact natDigits_ne_nil n (List.append_eq_nil.mp h).2

/-- The `Display` text of an abstracted `f64` is a digit run, or two digit
runs around a single dot. -/
theorem display_shape (v : F64) :
    (v.display ≠ [] ∧ ∀ x ∈ v.display, isDigit x = true) ∨
    (∃ d1 d2, v.display = d1 ++ 46 :: d2 ∧ d1 ≠ [] ∧ d2 ≠ [] ∧
      (∀ x ∈ d1, isDigit x = true) ∧ (∀ x ∈ d2, isDigit x = true)) := by
  unfold F64.display
  by_cases h : (v.scale == 0) = true
  · rw [if_pos h]
    exact Or.inl ⟨natDigits_ne_nil _, natDigits_all_digit _⟩
  · rw [if_neg h]
    refine Or.inr ⟨natDigits (v.mantissa / 10 ^ v.scale),
      natDigitsPad v.scale (v.mantissa % 10 ^ v.scale), ?_,
      natDigits_ne_nil _, natDigitsPad_ne_nil _ _,
      natDigits_all_digit _, natDigitsPad_all_digit _ _⟩
    simp

theorem splitDot_no_dot : ∀ l : List Nat, (∀ x ∈ l, isDigit x = true) →
    splitDot l = (l, none) := by
  intro l
  induction l with
  | nil => intro _; rfl
  | cons c t ih =>
    intro h
    have hc : isDigit c = true := h c (List.mem_cons_self c t)
    have hc46 : (c == 46) = false := by
      simp only [isDigit, Bool.and_eq_true, decide_eq_true_eq] at hc
      simp only [beq_eq_false_iff_ne]
      omega
    simp only [splitDot, hc46, Bool.false_eq_true, if_false]
    rw [ih fun x hx => h x (List.mem_cons_of_mem c hx)]

theorem splitDot_dotted : ∀ (d1 d2 : List Nat), (∀ x ∈ d1, isDigit x = true) →
    splitDot (d1 ++ 46 :: d2) = (d1, some d2) := by
  intro d1
  induction d1 with
  | nil => intro d2 _; rfl
  | cons c t ih =>
    intro d2 h
    have hc : isDigit c = true := h c (List.mem_cons_self c t)
    have hc46 : (c == 46) = false := by
      simp only [isDigit, Bool.and_eq_true, decide_eq_true_eq] at hc
      simp only [beq_eq_false_iff_ne]
      omega
    simp only [List.cons_append, splitDot, hc46, Bool.false_eq_true, if_false]
    simp only [List.append_eq]
    rw [ih d2 fun x hx => h x (List.mem_cons_of_mem c hx)]

/-- `parse::<f64>()` succeeds on every nonempty all-digit run. -/
theorem parseNum_digits {w : List Nat} (hne : w ≠ []) (hd : ∀ x ∈ w, isDigit x = true) :
    parseNum w = some (normScale (natOfDigits w) 0) := by
  unfold parseNum
  rw [splitDot_no_dot w hd]
  dsimp only
  rw [if_pos ⟨hne, List.all_eq_true.mpr hd⟩]

/-- `parse::<f64>()` succeeds on a dotted pair of digit runs. -/
theorem parseNum_dotted {d1 d2 : List Nat} (h2 : d2 ≠ [])
    (hd1 : ∀ x ∈ d1, isDigit x = true) (hd2 : ∀ x ∈ d2, isDigit x = true) :
    parseNum (d1 ++ 46 :: d2) =
      some (normScale (natOfDigits (d1 ++ d2)) d2.length) := by
  unfold parseNum
  rw [splitDot_dotted d1 d2 hd1]
  dsimp only
  rw [if_pos]
  refine ⟨?_, Or.inr h2, List.all_eq_true.mpr hd1, List.all_eq_true.mpr hd2⟩
  intro hmem
  have h46 : (46 : Nat) ∈ d2 := by simpa using hmem
  have := hd2 46 h46
  simp [isDigit] at this

/- ### Round-trip development: positional reading of a word in the source -/

theorem get?_of_drop {src : List Nat} {n : Nat} {w rest : List Nat} {i : Nat}
    (h : src.drop n = w ++ rest) (hi : i < w.length) :
    src.get? (n + i) = w.get? i := by
  rw [← List.get?_drop, h]
  exact List.get?_append hi

theorem get?_head_of_drop {src : List Nat} {n c : Nat} {t : List Nat}
    (h : src.drop n = c :: t) : src.get? n = some c := by
  have h' : src.drop n = (c :: t) ++ [] := by simpa using h
  have := get?_of_drop h' (i := 0) (by simp)
  simpa using this

theorem get?_none_of_drop {src : List Nat} {n : Nat}
    (h : src.drop n = []) : src.get? n = none :=
  List.get?_eq_none.mpr (List.drop_eq_nil_iff.mp h)

theorem drop_succ_of_drop {src : List Nat} {n : Nat} {c : Nat} {t : List Nat}
    (h : src.drop n = c :: t) : src.drop (n + 1) = t := by
  have := congrArg (List.drop 1) h
  rw [List.drop_drop] at this
  simpa using this

theorem col_add_le_of_drop {src : List Nat} {n : Nat} {w rest : List Nat}
    (h : src.drop n = w ++ rest) (hw : w ≠ []) :
    n + w.length + rest.length = src.length := by
  have hlen := congrArg List.length h
  rw [List.length_drop, List.length_append] at hlen
  have : n < src.length := by
    by_contra hn
    have hnil : src.drop n = [] := List.drop_eq_nil_of_le (by omega)
    rw [hnil] at h
    exact hw (List.append_eq_nil.mp h.symm).1
  omega

/-- The slice starting at a drop boundary recovers the word. -/
theorem slice_of_drop {src : List Nat} {n : Nat} {w rest : List Nat}
    (h : src.drop n = w ++ rest) (hw : w ≠ []) :
    sliceOpt src n (n + w.length) = some w := by
  have hlen := col_add_le_of_drop h hw
  unfold sliceOpt
  rw [if_pos ⟨by omega, by omega⟩]
  rw [h]
  congr 1
  have h2 : n + w.length - n = w.length := by omega
  rw [h2]
  exact List.take_left _ _

/-- A maximal alphanumeric word bounded by end-of-input or a space is the
whole maximal alphanumeric run at its position. -/
theorem maxAlnumRun_of_drop {src : List Nat} {n : Nat} {w rest : List Nat}
    (h : src.drop n = w ++ rest) (hw : ∀ x ∈ w, isAlphanumeric x = true)
    (hrest : rest = [] ∨ ∃ r, rest = 32 :: r) :
    maxAlnumRun src n = w := by
  unfold maxAlnumRun
  rw [h]
  have htail : rest.takeWhile isAlphanumeric = [] := by
    rcases hrest with rfl | ⟨r, rfl⟩
    · rfl
    · rw [List.takeWhile_cons_of_neg]
      decide
  clear h
  induction w with
  | nil => simpa using htail
  | cons c t ih =>
    rw [List.cons_append, List.takeWhile_cons_of_pos (hw c (List.mem_cons_self c t))]
    rw [ih fun x hx => hw x (List.mem_cons_of_mem c hx)]

/- ### Round-trip development: `advance_if` outcomes -/

theorem advance_if_true_eq {src : List Nat} {e : Nat} {s : ScanState}
    (h : src.get? s.col = some e) :
    advance_if src e s = (true, {s with col := s.col + 1}) := by
  unfold advance_if
  rw [peek_false, h]
  simp

theorem advance_if_false_eq {src : List Nat} {e : Nat} {s : ScanState}
    (h : src.get? s.col = none ∨ src.get? s.col = some 32) (he : e ≠ 32) :
    advance_if src e s = (false, s) := by
  unfold advance_if
  rw [peek_false]
  rcases h with h | h
  · rw [h]
    rfl
  · rw [h]
    have h32 : (32 == e) = false := by
      simp only [beq_eq_false_iff_ne]
      omega
    simp [h32]

/-- A convenient record-congruence step for column arithmetic. -/
theorem mk_col_congr (s : ScanState) {a b : Nat} (h : a = b) :
    ({s with col := a} : ScanState) = {s with col := b} := by rw [h]

/- ### Round-trip development: whitespace and `numberSkip` consumption -/

/-- Scanning at a space consumes exactly the space. -/
theorem scanLexeme_space {src : List Nat} {s : ScanState}
    (h : src.get? s.col = some 32) :
    scanLexeme src s = some {s with col := s.col + 1} := by
  unfold scanLexeme
  rw [h]
  simp

/-- `numberSkip` consumes exactly a digit run bounded by end-of-input or a
space. -/
theorem numberSkip_digits (src : List Nat) : ∀ (d : List Nat) (fuel : Nat)
    (s : ScanState) (rest : List Nat), d.length < fuel →
    (∀ x ∈ d, isDigit x = true) →
    (rest = [] ∨ ∃ r, rest = 32 :: r) →
    src.drop s.col = d ++ rest →
    numberSkip src fuel s = {s with col := s.col + d.length} := by
  intro d
  induction d with
  | nil =>
    intro fuel s rest hfuel _ hrest hdrop
    cases fuel with
    | zero => omega
    | succ fuel =>
      simp only [List.nil_append] at hdrop
      simp only [numberSkip, peek_false]
      rcases hrest with rfl | ⟨r, rfl⟩
      · rw [get?_none_of_drop hdrop]
        rfl
      · rw [get?_head_of_drop hdrop]
        dsimp only
        rw [if_neg (by decide), if_neg (by simp)]
        rfl
  | cons c t ih =>
    intro fuel s rest hfuel hd hrest hdrop
    cases fuel with
    | zero => omega
    | succ fuel =>
      have hc : isDigit c = true := hd c (List.mem_cons_self c t)
      have hdrop' : src.drop s.col = c :: (t ++ rest) := by simpa using hdrop
      simp only [numberSkip, peek_false, get?_head_of_drop hdrop']
      rw [if_pos hc]
      rw [ih fuel {s with col := s.col + 1} rest
        (by simp only [List.length_cons] at hfuel; omega)
        (fun x hx => hd x (List.mem_cons_of_mem c hx)) hrest
        (drop_succ_of_drop hdrop')]
      exact mk_col_congr s (by simp only [List.length_cons]; omega)

/-- `numberSkip` consumes exactly a dotted pair of digit runs bounded by
end-of-input or a space. -/
theorem numberSkip_dotted (src : List Nat) : ∀ (d1 : List Nat) (d2 : List Nat)
    (fuel : Nat) (s : ScanState) (rest : List Nat),
    d1.length + 1 + d2.length < fuel →
    (∀ x ∈ d1, isDigit x = true) → (∀ x ∈ d2, isDigit x = true) → d2 ≠ [] →
    (rest = [] ∨ ∃ r, rest = 32 :: r) →
    src.drop s.col = d1 ++ 46 :: (d2 ++ rest) →
    numberSkip src fuel s = {s with col := s.col + (d1.length + 1 + d2.length)} := by
  intro d1
  induction d1 with
  | nil =>
    intro d2 fuel s rest hfuel _ hd2 hne hrest hdrop
    cases fuel with
    | zero => omega
    | succ fuel =>
      simp only [List.nil_append] at hdrop
      cases d2 with
      | nil => exact absurd rfl hne
      | cons y d2' =>
        have hy : isDigit y = true := hd2 y (List.mem_cons_self y d2')
        have hdrop2 : src.drop (s.col + 1) = y :: (d2' ++ rest) := by
          have := drop_succ_of_drop hdrop
          simpa using this
        simp only [numberSkip, peek_false, peek_true, get?_head_of_drop hdrop,
          get?_head_of_drop hdrop2]
        rw [if_neg (by decide), if_pos (by simp [hy])]
        rw [numberSkip_digits src (y :: d2') fuel {s with col := s.col + 1} rest
          (by simp only [List.length_nil, List.length_cons] at hfuel ⊢; omega)
          hd2 hrest (by simpa using hdrop2)]
        exact mk_col_congr s (by simp only [List.length_nil, List.length_cons]; omega)
  | cons c t ih =>
    intro d2 fuel s rest hfuel hd1 hd2 hne hrest hdrop
    cases fuel with
    | zero => omega
    | succ fuel =>
      have hc : isDigit c = true := hd1 c (List.mem_cons_self c t)
      have hdrop' : src.drop s.col = c :: (t ++ 46 :: (d2 ++ rest)) := by
        simpa using hdrop
      simp only [numberSkip, peek_false, get?_head_of_drop hdrop']
      rw [if_pos hc]
      rw [ih d2 fuel {s with col := s.col + 1} rest
        (by simp only [List.length_cons] at hfuel; omega)
        (fun x hx => hd1 x (List.mem_cons_of_mem c hx)) hd2 hne hrest
        (drop_succ_of_drop hdrop')]
      exact mk_col_congr s (by simp only [List.length_cons]; omega)

/- ### Round-trip development: dispatch at a digit, literal-kind tokens -/

/-- When the current byte is an ASCII digit, `scan_lexeme` dispatches to
`Scanner::number` after consuming it. -/
theorem scanLexeme_digit (src : List Nat) (s : ScanState) (b : Nat)
    (hb : src.get? s.col = some b) (hdig : isDigit b = true) :
    scanLexeme src s = number src {s with col := s.col + 1} := by
  have h2 : 48 ≤ b ∧ b ≤ 57 := by
    simp only [isDigit, Bool.and_eq_true, decide_eq_true_eq] at hdig
    exact hdig
  have hne : ∀ k : Nat, b ≠ k → (b == k) = false := fun k hk =>
    beq_eq_false_iff_ne.mpr hk
  simp only [scanLexeme, hb, hne 123 (by omega), hne 125 (by omega),
    hne 40 (by omega), hne 41 (by omega), hne 44 (by omega), hne 46 (by omega),
    hne 45 (by omega), hne 43 (by omega), hne 59 (by omega), hne 42 (by omega),
    hne 34 (by omega), hne 32 (by omega), hne 13 (by omega), hne 9 (by omega),
    hne 10 (by omega), hne 33 (by omega), hne 61 (by omega), hne 62 (by omega),
    hne 60 (by omega), hne 47 (by omega), hne 63 (by omega), hne 58 (by omega),
    hdig, Bool.false_eq_true, if_false, Bool.or_self, if_true]

/-- `add_token_literal` with a literal-lexeme kind and a present literal
records the literal text as the lexeme. -/
theorem add_token_literal_lit (src : List Nat) (k : TokenType) (l : Literal)
    (s : ScanState) (hk : isLiteralKind k = true) :
    add_token_literal src k (some l) s =
      some {s with tokens := s.tokens ++ [⟨k, l.displayFmt, s.line, s.col, some l⟩]} := by
  cases k <;> simp_all [add_token_literal, isLiteralKind]

/-- Record-and-token congruence for the final column arithmetic of a scanned
word. -/
theorem state_token_eq (s : ScanState) (k : TokenType) (lex : List Nat)
    (lit : Option Literal) {a b : Nat} (h : a = b) :
    ({s with col := a, tokens := s.tokens ++ [⟨k, lex, s.line, a, lit⟩]} : ScanState) =
    {s with col := b, tokens := s.tokens ++ [⟨k, lex, s.line, b, lit⟩]} := by rw [h]

/- ### Round-trip development: scanning one rendered word -/

/-- Scanning at a word with a clean lexeme for a non-`String` kind, bounded
by end-of-input or a space, emits one token of exactly that kind and consumes
exactly the word. -/
theorem scanWord {src : List Nat} {K : TokenType} {w rest : List Nat}
    {s : ScanState} (hcl : cleanLex K w) (hstart : s.start = s.col)
    (hdrop : src.drop s.col = w ++ rest)
    (hrest : rest = [] ∨ ∃ r, rest = 32 :: r) :
    ∃ lex lit, scanLexeme src s = some {s with
      col := s.col + w.length,
      tokens := s.tokens ++ [⟨K, lex, s.line, s.col + w.length, lit⟩]} := by
  cases K with
  | LeftParen =>
    have hw : w = strBytes "(" := hcl
    subst hw
    have hg : src.get? s.col = some 40 := get?_head_of_drop hdrop
    have hstep : scanLexeme src s = add_token src .LeftParen {s with col := s.col + 1} := by
      unfold scanLexeme left_paren
      rw [hg]
      simp
    refine ⟨strBytes "(", none, ?_⟩
    rw [hstep, add_token_slice src {s with col := s.col + 1} .LeftParen (strBytes "(")
      (by decide)
      (by rw [show ({s with col := s.col + 1} : ScanState).start = s.col from hstart]
          exact slice_of_drop hdrop (by decide))
      (by decide)]
    rfl

  | RightParen =>
    have hw : w = strBytes ")" := hcl
    subst hw
    have hg : src.get? s.col = some 41 := get?_head_of_drop hdrop
    have hstep : scanLexeme src s = add_token src .RightParen {s with col := s.col + 1} := by
      unfold scanLexeme right_paren
      rw [hg]
      simp
    refine ⟨strBytes ")", none, ?_⟩
    rw [hstep, add_token_slice src {s with col := s.col + 1} .RightParen (strBytes ")")
      (by decide)
      (by rw [show ({s with col := s.col + 1} : ScanState).start = s.col from hstart]
          exact slice_of_drop hdrop (by decide))
      (by decide)]
    rfl

  | LeftBrace =>
    have hw : w = strBytes "\x7b" := hcl
    subst hw
    have hg : src.get? s.col = some 123 := get?_head_of_drop hdrop
    have hstep : scanLexeme src s = add_token src .LeftBrace {s with col := s.col + 1} := by
      unfold scanLexeme left_brace
      rw [hg]
      simp
    refine ⟨strBytes "\x7b", none, ?_⟩
    rw [hstep, add_token_slice src {s with col := s.col + 1} .LeftBrace (strBytes "\x7b")
      (by decide)
      (by rw [show ({s with col := s.col + 1} : ScanState).start = s.col from hstart]
          exact slice_of_drop hdrop (by decide))
      (by decide)]
    rfl

  | RightBrace =>
    have hw : w = strBytes "\x7d" := hcl
    subst hw
    have hg : src.get? s.col = some 125 := get?_head_of_drop hdrop
    have hstep : scanLexeme src s = add_token src .RightBrace {s with col := s.col + 1} := by
      unfold scanLexeme right_brace
      rw [hg]
      simp
    refine ⟨strBytes "\x7d", none, ?_⟩
    rw [hstep, add_token_slice src {s with col := s.col + 1} .RightBrace (strBytes "\x7d")
      (by decide)
      (by rw [show ({s with col := s.col + 1} : ScanState).start = s.col from hstart]
          exact slice_of_drop hdrop (by decide))
      (by decide)]
    rfl

  | Comma =>
    have hw : w = strBytes "," := hcl
    subst hw
    have hg : src.get? s.col = some 44 := get?_head_of_drop hdrop
    have hstep : scanLexeme src s = add_token src .Comma {s with col := s.col + 1} := by
      unfold scanLexeme comma
      rw [hg]
      simp
    refine ⟨strBytes ",", none, ?_⟩
    rw [hstep, add_token_slice src {s with col := s.col + 1} .Comma (strBytes ",")
      (by decide)
      (by rw [show ({s with col := s.col + 1} : ScanState).start = s.col from hstart]
          exact slice_of_drop hdrop (by decide))
      (by decide)]
    rfl

  | Dot =>
    have hw : w = strBytes "." := hcl
    subst hw
    have hg : src.get? s.col = some 46 := get?_head_of_drop hdrop
    have hstep : scanLexeme src s = add_token src .Dot {s with col := s.col + 1} := by
      unfold scanLexeme dot
      rw [hg]
      simp
    refine ⟨strBytes ".", none, ?_⟩
    rw [hstep, add_token_slice src {s with col := s.col + 1} .Dot (strBytes ".")
      (by decide)
      (by rw [show ({s with col := s.col + 1} : ScanState).start = s.col from hstart]
          exact slice_of_drop hdrop (by decide))
      (by decide)]
    rfl

  | Semicolon =>
    have hw : w = strBytes ";" := hcl
    subst hw
    have hg : src.get? s.col = some 59 := get?_head_of_drop hdrop
    have hstep : scanLexeme src s = add_token src .Semicolon {s with col := s.col + 1} := by
      unfold scanLexeme semicolon
      rw [hg]
      simp
    refine ⟨strBytes ";", none, ?_⟩
    rw [hstep, add_token_slice src {s with col := s.col + 1} .Semicolon (strBytes ";")
      (by decide)
      (by rw [show ({s with col := s.col + 1} : ScanState).start = s.col from hstart]
          exact slice_of_drop hdrop (by decide))
      (by decide)]
    rfl

  | Minus =>
    have hw : w = strBytes "-" := hcl
    subst hw
    have hg : src.get? s.col = some 45 := get?_head_of_drop hdrop
    have hstep : scanLexeme src s = add_token src .Minus {s with col := s.col + 1} := by
      unfold scanLexeme minus
      rw [hg]
      simp
    refine ⟨strBytes "-", none, ?_⟩
    rw [hstep, add_token_slice src {s with col := s.col + 1} .Minus (strBytes "-")
      (by decide)
      (by rw [show ({s with col := s.col + 1} : ScanState).start = s.col from hstart]
          exact slice_of_drop hdrop (by decide))
      (by decide)]
    rfl

  | Plus =>
    have hw : w = strBytes "+" := hcl
    subst hw
    have hg : src.get? s.col = some 43 := get?_head_of_drop hdrop
    have hstep : scanLexeme src s = add_token src .Plus {s with col := s.col + 1} := by
      unfold scanLexeme plus
      rw [hg]
      simp
    refine ⟨strBytes "+", none, ?_⟩
    rw [hstep, add_token_slice src {s with col := s.col + 1} .Plus (strBytes "+")
      (by decide)
      (by rw [show ({s with col := s.col + 1} : ScanState).start = s.col from hstart]
          exact slice_of_drop hdrop (by decide))
      (by decide)]
    rfl

  | Star =>
    have hw : w = strBytes "*" := hcl
    subst hw
    have hg : src.get? s.col = some 42 := get?_head_of_drop hdrop
    have hstep : scanLexeme src s = add_token src .Star {s with col := s.col + 1} := by
      unfold scanLexeme star
      rw [hg]
      simp
    refine ⟨strBytes "*", none, ?_⟩
    rw [hstep, add_token_slice src {s with col := s.col + 1} .Star (strBytes "*")
      (by decide)
      (by rw [show ({s with col := s.col + 1} : ScanState).start = s.col from hstart]
          exact slice_of_drop hdrop (by decide))
      (by decide)]
    rfl

  | Question =>
    have hw : w = strBytes "?" := hcl
    subst hw
    have hg : src.get? s.col = some 63 := get?_head_of_drop hdrop
    have hstep : scanLexeme src s = add_token src .Question {s with col := s.col + 1} := by
      unfold scanLexeme question
      rw [hg]
      simp
    refine ⟨strBytes "?", none, ?_⟩
    rw [hstep, add_token_slice src {s with col := s.col + 1} .Question (strBytes "?")
      (by decide)
      (by rw [show ({s with col := s.col + 1} : ScanState).start = s.col from hstart]
          exact slice_of_drop hdrop (by decide))
      (by decide)]
    rfl

  | Colon =>
    have hw : w = strBytes ":" := hcl
    subst hw
    have hg : src.get? s.col = some 58 := get?_head_of_drop hdrop
    have hstep : scanLexeme src s = add_token src .Colon {s with col := s.col + 1} := by
      unfold scanLexeme colon
      rw [hg]
      simp
    refine ⟨strBytes ":", none, ?_⟩
    rw [hstep, add_token_slice src {s with col := s.col + 1} .Colon (strBytes ":")
      (by decide)
      (by rw [show ({s with col := s.col + 1} : ScanState).start = s.col from hstart]
          exact slice_of_drop hdrop (by decide))
      (by decide)]
    rfl

  | BangEqual =>
    have hw : w = strBytes "!=" := hcl
    subst hw
    have hg : src.get? s.col = some 33 := get?_head_of_drop hdrop
    have hg2 : src.get? (s.col + 1) = some 61 := get?_of_drop hdrop (by decide)
    have hstep : scanLexeme src s = add_token src .BangEqual {s with col := s.col + 1 + 1} := by
      unfold scanLexeme bang
      rw [hg]
      simp [@advance_if_true_eq src 61 {s with col := s.col + 1} hg2]
    refine ⟨strBytes "!=", none, ?_⟩
    rw [hstep, add_token_slice src {s with col := s.col + 1 + 1} .BangEqual (strBytes "!=")
      (by decide)
      (by rw [show ({s with col := s.col + 1 + 1} : ScanState).start = s.col from hstart]
          exact slice_of_drop hdrop (by decide))
      (by decide)]
    rfl

  | EqualEqual =>
    have hw : w = strBytes "==" := hcl
    subst hw
    have hg : src.get? s.col = some 61 := get?_head_of_drop hdrop
    have hg2 : src.get? (s.col + 1) = some 61 := get?_of_drop hdrop (by decide)
    have hstep : scanLexeme src s = add_token src .EqualEqual {s with col := s.col + 1 + 1} := by
      unfold scanLexeme equal
      rw [hg]
      simp [@advance_if_true_eq src 61 {s with col := s.col + 1} hg2]
    refine ⟨strBytes "==", none, ?_⟩
    rw [hstep, add_token_slice src {s with col := s.col + 1 + 1} .EqualEqual (strBytes "==")
      (by decide)
      (by rw [show ({s with col := s.col + 1 + 1} : ScanState).start = s.col from hstart]
          exact slice_of_drop hdrop (by decide))
      (by decide)]
    rfl

  | GreaterEqual =>
    have hw : w = strBytes ">=" := hcl
    subst hw
    have hg : src.get? s.col = some 62 := get?_head_of_drop hdrop
    have hg2 : src.get? (s.col + 1) = some 61 := get?_of_drop hdrop (by decide)
    have hstep : scanLexeme src s = add_token src .GreaterEqual {s with col := s.col + 1 + 1} := by
      unfold scanLexeme greater
      rw [hg]
      simp [@advance_if_true_eq src 61 {s with col := s.col + 1} hg2]
    refine ⟨strBytes ">=", none, ?_⟩
    rw [hstep, add_token_slice src {s with col := s.col + 1 + 1} .GreaterEqual (strBytes ">=")
      (by decide)
      (by rw [show ({s with col := s.col + 1 + 1} : ScanState).start = s.col from hstart]
          exact slice_of_drop hdrop (by decide))
      (by decide)]
    rfl

  | LessEqual =>
    have hw : w = strBytes "<=" := hcl
    subst hw
    have hg : src.get? s.col = some 60 := get?_head_of_drop hdrop
    have hg2 : src.get? (s.col + 1) = some 61 := get?_of_drop hdrop (by decide)
    have hstep : scanLexeme src s = add_token src .LessEqual {s with col := s.col + 1 + 1} := by
      unfold scanLexeme lesser
      rw [hg]
      simp [@advance_if_true_eq src 61 {s with col := s.col + 1} hg2]
    refine ⟨strBytes "<=", none, ?_⟩
    rw [hstep, add_token_slice src {s with col := s.col + 1 + 1} .LessEqual (strBytes "<=")
      (by decide)
      (by rw [show ({s with col := s.col + 1 + 1} : ScanState).start = s.col from hstart]
          exact slice_of_drop hdrop (by decide))
      (by decide)]
    rfl

  | Bang =>
    have hw : w = strBytes "!" := hcl
    subst hw
    have hg : src.get? s.col = some 33 := get?_head_of_drop hdrop
    have hdrop2 : src.drop (s.col + 1) = rest := drop_succ_of_drop hdrop
    have hg2 : src.get? (s.col + 1) = none ∨ src.get? (s.col + 1) = some 32 := by
      rcases hrest with rfl | ⟨r, rfl⟩
      · exact Or.inl (get?_none_of_drop hdrop2)
      · exact Or.inr (get?_head_of_drop hdrop2)
    have hstep : scanLexeme src s = add_token src .Bang {s with col := s.col + 1} := by
      unfold scanLexeme bang
      rw [hg]
      simp [@advance_if_false_eq src 61 {s with col := s.col + 1} hg2 (by decide)]
    refine ⟨strBytes "!", none, ?_⟩
    rw [hstep, add_token_slice src {s with col := s.col + 1} .Bang (strBytes "!")
      (by decide)
      (by rw [show ({s with col := s.col + 1} : ScanState).start = s.col from hstart]
          exact slice_of_drop hdrop (by decide))
      (by decide)]
    rfl

  | Equal =>
    have hw : w = strBytes "=" := hcl
    subst hw
    have hg : src.get? s.col = some 61 := get?_head_of_drop hdrop
    have hdrop2 : src.drop (s.col + 1) = rest := drop_succ_of_drop hdrop
    have hg2 : src.get? (s.col + 1) = none ∨ src.get? (s.col + 1) = some 32 := by
      rcases hrest with rfl | ⟨r, rfl⟩
      · exact Or.inl (get?_none_of_drop hdrop2)
      · exact Or.inr (get?_head_of_drop hdrop2)
    have hstep : scanLexeme src s = add_token src .Equal {s with col := s.col + 1} := by
      unfold scanLexeme equal
      rw [hg]
      simp [@advance_if_false_eq src 61 {s with col := s.col + 1} hg2 (by decide)]
    refine ⟨strBytes "=", none, ?_⟩
    rw [hstep, add_token_slice src {s with col := s.col + 1} .Equal (strBytes "=")
      (by decide)
      (by rw [show ({s with col := s.col + 1} : ScanState).start = s.col from hstart]
          exact slice_of_drop hdrop (by decide))
      (by decide)]
    rfl

  | Greater =>
    have hw : w = strBytes ">" := hcl
    subst hw
    have hg : src.get? s.col = some 62 := get?_head_of_drop hdrop
    have hdrop2 : src.drop (s.col + 1) = rest := drop_succ_of_drop hdrop
    have hg2 : src.get? (s.col + 1) = none ∨ src.get? (s.col + 1) = some 32 := by
      rcases hrest with rfl | ⟨r, rfl⟩
      · exact Or.inl (get?_none_of_drop hdrop2)
      · exact Or.inr (get?_head_of_drop hdrop2)
    have hstep : scanLexeme src s = add_token src .Greater {s with col := s.col + 1} := by
      unfold scanLexeme greater
      rw [hg]
      simp [@advance_if_false_eq src 61 {s with col := s.col + 1} hg2 (by decide)]
    refine ⟨strBytes ">", none, ?_⟩
    rw [hstep, add_token_slice src {s with col := s.col + 1} .Greater (strBytes ">")
      (by decide)
      (by rw [show ({s with col := s.col + 1} : ScanState).start = s.col from hstart]
          exact slice_of_drop hdrop (by decide))
      (by decide)]
    rfl

  | Less =>
    have hw : w = strBytes "<" := hcl
    subst hw
    have hg : src.get? s.col = some 60 := get?_head_of_drop hdrop
    have hdrop2 : src.drop (s.col + 1) = rest := drop_succ_of_drop hdrop
    have hg2 : src.get? (s.col + 1) = none ∨ src.get? (s.col + 1) = some 32 := by
      rcases hrest with rfl | ⟨r, rfl⟩
      · exact Or.inl (get?_none_of_drop hdrop2)
      · exact Or.inr (get?_head_of_drop hdrop2)
    have hstep : scanLexeme src s = add_token src .Less {s with col := s.col + 1} := by
      unfold scanLexeme lesser
      rw [hg]
      simp [@advance_if_false_eq src 61 {s with col := s.col + 1} hg2 (by decide)]
    refine ⟨strBytes "<", none, ?_⟩
    rw [hstep, add_token_slice src {s with col := s.col + 1} .Less (strBytes "<")
      (by decide)
      (by rw [show ({s with col := s.col + 1} : ScanState).start = s.col from hstart]
          exact slice_of_drop hdrop (by decide))
      (by decide)]
    rfl

  | Slash =>
    have hw : w = strBytes "/" := hcl
    subst hw
    have hg : src.get? s.col = some 47 := get?_head_of_drop hdrop
    have hdrop2 : src.drop (s.col + 1) = rest := drop_succ_of_drop hdrop
    have hg2 : src.get? (s.col + 1) = none ∨ src.get? (s.col + 1) = some 32 := by
      rcases hrest with rfl | ⟨r, rfl⟩
      · exact Or.inl (get?_none_of_drop hdrop2)
      · exact Or.inr (get?_head_of_drop hdrop2)
    have hstep : scanLexeme src s = add_token src .Slash {s with col := s.col + 1} := by
      unfold scanLexeme slash
      rw [hg]
      simp [@advance_if_false_eq src 47 {s with col := s.col + 1} hg2 (by decide),
        @advance_if_false_eq src 42 {s with col := s.col + 1} hg2 (by decide)]
    refine ⟨strBytes "/", none, ?_⟩
    rw [hstep, add_token_slice src {s with col := s.col + 1} .Slash (strBytes "/")
      (by decide)
      (by rw [show ({s with col := s.col + 1} : ScanState).start = s.col from hstart]
          exact slice_of_drop hdrop (by decide))
      (by decide)]
    rfl

  | And =>
    have hw : w = strBytes "and" := hcl
    subst hw
    have hg : src.get? s.col = some 97 := get?_head_of_drop hdrop
    have hrun : maxAlnumRun src s.col = strBytes "and" :=
      maxAlnumRun_of_drop hdrop (by decide) hrest
    have h := identifier_run_spec src s 97 hstart hg (by decide) (by rw [hrun]; decide)
    rw [hrun] at h
    exact ⟨strBytes "and", none, h⟩

  | Class =>
    have hw : w = strBytes "class" := hcl
    subst hw
    have hg : src.get? s.col = some 99 := get?_head_of_drop hdrop
    have hrun : maxAlnumRun src s.col = strBytes "class" :=
      maxAlnumRun_of_drop hdrop (by decide) hrest
    have h := identifier_run_spec src s 99 hstart hg (by decide) (by rw [hrun]; decide)
    rw [hrun] at h
    exact ⟨strBytes "class", none, h⟩

  | Else =>
    have hw : w = strBytes "else" := hcl
    subst hw
    have hg : src.get? s.col = some 101 := get?_head_of_drop hdrop
    have hrun : maxAlnumRun src s.col = strBytes "else" :=
      maxAlnumRun_of_drop hdrop (by decide) hrest
    have h := identifier_run_spec src s 101 hstart hg (by decide) (by rw [hrun]; decide)
    rw [hrun] at h
    exact ⟨strBytes "else", none, h⟩

  | False =>
    have hw : w = strBytes "false" := hcl
    subst hw
    have hg : src.get? s.col = some 102 := get?_head_of_drop hdrop
    have hrun : maxAlnumRun src s.col = strBytes "false" :=
      maxAlnumRun_of_drop hdrop (by decide) hrest
    have h := identifier_run_spec src s 102 hstart hg (by decide) (by rw [hrun]; decide)
    rw [hrun] at h
    exact ⟨strBytes "false", none, h⟩

  | Fun =>
    have hw : w = strBytes "fun" := hcl
    subst hw
    have hg : src.get? s.col = some 102 := get?_head_of_drop hdrop
    have hrun : maxAlnumRun src s.col = strBytes "fun" :=
      maxAlnumRun_of_drop hdrop (by decide) hrest
    have h := identifier_run_spec src s 102 hstart hg (by decide) (by rw [hrun]; decide)
    rw [hrun] at h
    exact ⟨strBytes "fun", none, h⟩

  | For =>
    have hw : w = strBytes "for" := hcl
    subst hw
    have hg : src.get? s.col = some 102 := get?_head_of_drop hdrop
    have hrun : maxAlnumRun src s.col = strBytes "for" :=
      maxAlnumRun_of_drop hdrop (by decide) hrest
    have h := identifier_run_spec src s 102 hstart hg (by decide) (by rw [hrun]; decide)
    rw [hrun] at h
    exact ⟨strBytes "for", none, h⟩

  | If =>
    have hw : w = strBytes "if" := hcl
    subst hw
    have hg : src.get? s.col = some 105 := get?_head_of_drop hdrop
    have hrun : maxAlnumRun src s.col = strBytes "if" :=
      maxAlnumRun_of_drop hdrop (by decide) hrest
    have h := identifier_run_spec src s 105 hstart hg (by decide) (by rw [hrun]; decide)
    rw [hrun] at h
    exact ⟨strBytes "if", none, h⟩

  | Nil =>
    have hw : w = strBytes "nil" := hcl
    subst hw
    have hg : src.get? s.col = some 110 := get?_head_of_drop hdrop
    have hrun : maxAlnumRun src s.col = strBytes "nil" :=
      maxAlnumRun_of_drop hdrop (by decide) hrest
    have h := identifier_run_spec src s 110 hstart hg (by decide) (by rw [hrun]; decide)
    rw [hrun] at h
    exact ⟨strBytes "nil", none, h⟩

  | Or =>
    have hw : w = strBytes "or" := hcl
    subst hw
    have hg : src.get? s.col = some 111 := get?_head_of_drop hdrop
    have hrun : maxAlnumRun src s.col = strBytes "or" :=
      maxAlnumRun_of_drop hdrop (by decide) hrest
    have h := identifier_run_spec src s 111 hstart hg (by decide) (by rw [hrun]; decide)
    rw [hrun] at h
    exact ⟨strBytes "or", none, h⟩

  | Print =>
    have hw : w = strBytes "print" := hcl
    subst hw
    have hg : src.get? s.col = some 112 := get?_head_of_drop hdrop
    have hrun : maxAlnumRun src s.col = strBytes "print" :=
      maxAlnumRun_of_drop hdrop (by decide) hrest
    have h := identifier_run_spec src s 112 hstart hg (by decide) (by rw [hrun]; decide)
    rw [hrun] at h
    exact ⟨strBytes "print", none, h⟩

  | Return =>
    have hw : w = strBytes "return" := hcl
    subst hw
    have hg : src.get? s.col = some 114 := get?_head_of_drop hdrop
    have hrun : maxAlnumRun src s.col = strBytes "return" :=
      maxAlnumRun_of_drop hdrop (by decide) hrest
    have h := identifier_run_spec src s 114 hstart hg (by decide) (by rw [hrun]; decide)
    rw [hrun] at h
    exact ⟨strBytes "return", none, h⟩

  | Super =>
    have hw : w = strBytes "super" := hcl
    subst hw
    have hg : src.get? s.col = some 115 := get?_head_of_drop hdrop
    have hrun : maxAlnumRun src s.col = strBytes "super" :=
      maxAlnumRun_of_drop hdrop (by decide) hrest
    have h := identifier_run_spec src s 115 hstart hg (by decide) (by rw [hrun]; decide)
    rw [hrun] at h
    exact ⟨strBytes "super", none, h⟩

  | This =>
    have hw : w = strBytes "this" := hcl
    subst hw
    have hg : src.get? s.col = some 116 := get?_head_of_drop hdrop
    have hrun : maxAlnumRun src s.col = strBytes "this" :=
      maxAlnumRun_of_drop hdrop (by decide) hrest
    have h := identifier_run_spec src s 116 hstart hg (by decide) (by rw [hrun]; decide)
    rw [hrun] at h
    exact ⟨strBytes "this", none, h⟩

  | True =>
    have hw : w = strBytes "true" := hcl
    subst hw
    have hg : src.get? s.col = some 116 := get?_head_of_drop hdrop
    have hrun : maxAlnumRun src s.col = strBytes "true" :=
      maxAlnumRun_of_drop hdrop (by decide) hrest
    have h := identifier_run_spec src s 116 hstart hg (by decide) (by rw [hrun]; decide)
    rw [hrun] at h
    exact ⟨strBytes "true", none, h⟩

  | Var =>
    have hw : w = strBytes "var" := hcl
    subst hw
    have hg : src.get? s.col = some 118 := get?_head_of_drop hdrop
    have hrun : maxAlnumRun src s.col = strBytes "var" :=
      maxAlnumRun_of_drop hdrop (by decide) hrest
    have h := identifier_run_spec src s 118 hstart hg (by decide) (by rw [hrun]; decide)
    rw [hrun] at h
    exact ⟨strBytes "var", none, h⟩

  | While =>
    have hw : w = strBytes "while" := hcl
    subst hw
    have hg : src.get? s.col = some 119 := get?_head_of_drop hdrop
    have hrun : maxAlnumRun src s.col = strBytes "while" :=
      maxAlnumRun_of_drop hdrop (by decide) hrest
    have h := identifier_run_spec src s 119 hstart hg (by decide) (by rw [hrun]; decide)
    rw [hrun] at h
    exact ⟨strBytes "while", none, h⟩

  | Eof =>
    have hw : w = strBytes "eof" := hcl
    subst hw
    have hg : src.get? s.col = some 101 := get?_head_of_drop hdrop
    have hrun : maxAlnumRun src s.col = strBytes "eof" :=
      maxAlnumRun_of_drop hdrop (by decide) hrest
    have h := identifier_run_spec src s 101 hstart hg (by decide) (by rw [hrun]; decide)
    rw [hrun] at h
    exact ⟨strBytes "eof", none, h⟩

  | Identifier =>
    obtain ⟨⟨b, r, hbr, hba⟩, hall, hv, hlook⟩ := hcl
    subst hbr
    have hg : src.get? s.col = some b := get?_head_of_drop hdrop
    have hrun : maxAlnumRun src s.col = b :: r :=
      maxAlnumRun_of_drop hdrop hall hrest
    have h := identifier_run_spec src s b hstart hg hba (by rw [hrun]; exact hv)
    rw [hrun, hlook] at h
    exact ⟨b :: r, some (.Identifier (b :: r)), h⟩

  | String => exact hcl.elim

  | Number =>
    obtain ⟨v, hw⟩ := hcl
    subst hw
    rcases display_shape v with ⟨hne, hdig⟩ | ⟨d1, d2, hsplit, h1ne, h2ne, hd1, hd2⟩
    · cases hdc : v.display with
      | nil => exact absurd hdc hne
      | cons c t =>
        rw [hdc] at hdrop hdig
        have hc : isDigit c = true := hdig c (List.mem_cons_self c t)
        have hdrop' : src.drop s.col = c :: (t ++ rest) := by simpa using hdrop
        have hg : src.get? s.col = some c := get?_head_of_drop hdrop'
        have hlen := col_add_le_of_drop hdrop (by simp)
        have hsl : sliceOpt src s.start (s.col + 1 + t.length) = some (c :: t) := by
          rw [hstart, show s.col + 1 + t.length = s.col + (c :: t).length from by
            simp only [List.length_cons]; omega]
          exact slice_of_drop hdrop (by simp)
        have hv : utf8Valid (c :: t) = true := by
          refine utf8Valid_ascii _ ?_
          intro x hx
          have := hdig x hx
          simp only [isDigit, Bool.and_eq_true, decide_eq_true_eq] at this
          omega
        rw [scanLexeme_digit src s c hg hc]
        unfold number
        rw [numberSkip_digits src t (src.length + 2) {s with col := s.col + 1} rest
          (by simp only [List.length_cons] at hlen; omega)
          (fun x hx => hdig x (List.mem_cons_of_mem c hx)) hrest
          (drop_succ_of_drop hdrop')]
        dsimp only
        rw [hsl]
        dsimp only
        rw [if_pos hv, parseNum_digits (by simp) hdig]
        dsimp only
        rw [add_token_literal_lit src .Number (.Number (normScale (natOfDigits (c :: t)) 0))
          _ rfl]
        refine ⟨_, _, congrArg some (state_token_eq s .Number _ _ ?_)⟩
        simp only [List.length_cons]
        omega
    · cases d1 with
      | nil => exact absurd rfl h1ne
      | cons c t =>
        rw [hsplit] at hdrop ⊢
        have hc : isDigit c = true := hd1 c (List.mem_cons_self c t)
        have hdrop' : src.drop s.col = c :: (t ++ 46 :: (d2 ++ rest)) := by
          simpa using hdrop
        have hg : src.get? s.col = some c := get?_head_of_drop hdrop'
        have hlen := col_add_le_of_drop hdrop (by simp)
        have hsl : sliceOpt src s.start (s.col + 1 + (t.length + 1 + d2.length)) =
            some ((c :: t) ++ 46 :: d2) := by
          rw [hstart, show s.col + 1 + (t.length + 1 + d2.length) =
              s.col + ((c :: t) ++ 46 :: d2).length from by
            simp only [List.length_append, List.length_cons]; omega]
          exact slice_of_drop hdrop (by simp)
        have hv : utf8Valid ((c :: t) ++ 46 :: d2) = true := by
          refine utf8Valid_ascii _ ?_
          intro x hx
          rcases List.mem_append.mp hx with hm | hm
          · have := hd1 x hm
            simp only [isDigit, Bool.and_eq_true, decide_eq_true_eq] at this
            omega
          · rcases List.mem_cons.mp hm with rfl | hm2
            · omega
            · have := hd2 x hm2
              simp only [isDigit, Bool.and_eq_true, decide_eq_true_eq] at this
              omega
        rw [scanLexeme_digit src s c hg hc]
        unfold number
        rw [numberSkip_dotted src t d2 (src.length + 2) {s with col := s.col + 1} rest
          (by simp only [List.length_append, List.length_cons] at hlen; omega)
          (fun x hx => hd1 x (List.mem_cons_of_mem c hx)) hd2 h2ne hrest
          (drop_succ_of_drop hdrop')]
        dsimp only
        rw [hsl]
        dsimp only
        rw [if_pos hv, parseNum_dotted h2ne hd1 hd2]
        dsimp only
        rw [add_token_literal_lit src .Number
          (.Number (normScale (natOfDigits ((c :: t) ++ d2)) d2.length)) _ rfl]
        refine ⟨_, _, congrArg some (state_token_eq s .Number _ _ ?_)⟩
        simp only [List.length_append, List.length_cons]
        omega

/- ### Round-trip development: non-emptiness of clean lexemes -/

theorem display_ne_nil (v : F64) : v.display ≠ [] := by
  rcases display_shape v with ⟨h, _⟩ | ⟨d1, d2, hs, h1, _, _, _⟩
  · exact h
  · rw [hs]
    simp

theorem cleanLex_ne_nil {K : TokenType} {w : List Nat} (h : cleanLex K w) :
    w ≠ [] := by
  cases K
  all_goals first
    | exact h.elim
    | (obtain ⟨v, rfl⟩ := h; exact display_ne_nil v)
    | (obtain ⟨⟨b, r, hbr, hba⟩, hrest⟩ := h; subst hbr; simp)
    | (have hw := h; simp only [cleanLex] at hw; subst hw; decide)

/- ### Round-trip development: composing scanner-loop steps -/

theorem scanLoop_last (src : List Nat) (fuel : Nat) (u : ScanState)
    (h : ¬ (u.col < src.length)) : scanLoop src (fuel + 1) u = some u := by
  simp only [scanLoop]
  rw [if_neg h]

theorem scanLoop_word_step (src : List Nat) (fuel : Nat) (s : ScanState)
    {K : TokenType} {w rest : List Nat} (hcl : cleanLex K w)
    (hdrop : src.drop s.col = w ++ rest)
    (hrest : rest = [] ∨ ∃ r, rest = 32 :: r)
    (hlt : s.col < src.length) :
    ∃ lex lit, scanLoop src (fuel + 1) s = scanLoop src fuel {s with
      start := s.col, col := s.col + w.length,
      tokens := s.tokens ++ [⟨K, lex, s.line, s.col + w.length, lit⟩]} := by
  obtain ⟨lex, lit, h⟩ :=
    @scanWord src K w rest {s with start := s.col} hcl rfl hdrop hrest
  refine ⟨lex, lit, ?_⟩
  simp only [scanLoop]
  rw [if_pos hlt, h]

theorem scanLoop_space_step (src : List Nat) (fuel : Nat) (u : ScanState)
    (hlt : u.col < src.length) (hg : src.get? u.col = some 32) :
    scanLoop src (fuel + 1) u =
      scanLoop src fuel {u with start := u.col, col := u.col + 1} := by
  simp only [scanLoop]
  rw [if_pos hlt, @scanLexeme_space src {u with start := u.col} hg]

/- ### Round-trip development: the rendered token list rescans to the same
kind sequence -/

theorem rescan_loop (toks : List Token) : ∀ (fuel : Nat) (pre : List Nat)
    (s : ScanState),
    (∀ tk ∈ toks, cleanLex tk.tokenType tk.lexeme) →
    s.col = pre.length →
    (renderTokens toks).length < fuel →
    ∃ st, scanLoop (pre ++ renderTokens toks) fuel s = some st ∧
      ∃ made, st.tokens = s.tokens ++ made ∧
        made.map Token.tokenType = toks.map Token.tokenType := by
  induction toks with
  | nil =>
    intro fuel pre s _ hcol hfuel
    cases fuel with
    | zero => exact absurd hfuel (Nat.not_lt_zero _)
    | succ fuel =>
      refine ⟨s, ?_, [], by simp, rfl⟩
      simp only [scanLoop]
      rw [if_neg (by simp [renderTokens, hcol])]
  | cons t ts ih =>
    intro fuel pre s hall hcol hfuel
    have hclt : cleanLex t.tokenType t.lexeme := hall t (List.mem_cons_self t ts)
    have hwne : t.lexeme ≠ [] := cleanLex_ne_nil hclt
    have hlenw : 0 < t.lexeme.length := List.length_pos.mpr hwne
    cases fuel with
    | zero => exact absurd hfuel (Nat.not_lt_zero _)
    | succ fuel =>
      cases ts with
      | nil =>
        have hdrop : (pre ++ renderTokens [t]).drop s.col = t.lexeme ++ [] := by
          rw [hcol]
          simpa [renderTokens] using List.drop_left pre (renderTokens [t])
        obtain ⟨lex, lit, hstep1⟩ := scanLoop_word_step (pre ++ renderTokens [t])
          fuel s hclt hdrop (Or.inl rfl)
          (by rw [hcol]; simp only [List.length_append, renderTokens]; omega)
        rw [hstep1]
        cases fuel with
        | zero =>
          exfalso
          simp only [renderTokens] at hfuel
          omega
        | succ f2 =>
          rw [scanLoop_last (pre ++ renderTokens [t]) f2 {s with
            start := s.col, col := s.col + t.lexeme.length,
            tokens := s.tokens ++
              [⟨t.tokenType, lex, s.line, s.col + t.lexeme.length, lit⟩]}
            (by dsimp only; rw [hcol]; simp [renderTokens])]
          exact ⟨_, rfl, [⟨t.tokenType, lex, s.line, s.col + t.lexeme.length, lit⟩],
            rfl, rfl⟩
      | cons t2 ts2 =>
        have hrt : renderTokens (t :: t2 :: ts2) =
            t.lexeme ++ [32] ++ renderTokens (t2 :: ts2) := rfl
        have hdrop : (pre ++ renderTokens (t :: t2 :: ts2)).drop s.col =
            t.lexeme ++ (32 :: renderTokens (t2 :: ts2)) := by
          rw [hcol, hrt]
          rw [show pre ++ (t.lexeme ++ [32] ++ renderTokens (t2 :: ts2)) =
              pre ++ (t.lexeme ++ (32 :: renderTokens (t2 :: ts2))) from by simp]
          exact List.drop_left _ _
        obtain ⟨lex, lit, hstep1⟩ :=
          scanLoop_word_step (pre ++ renderTokens (t :: t2 :: ts2)) fuel s hclt
            hdrop (Or.inr ⟨_, rfl⟩)
            (by rw [hcol, hrt]; simp only [List.length_append, List.length_cons]; omega)
        rw [hstep1]
        cases fuel with
        | zero =>
          exfalso
          rw [hrt] at hfuel
          simp only [List.length_append, List.length_cons, List.length_nil] at hfuel
          omega
        | succ f2 =>
          have hdrop2 : (pre ++ renderTokens (t :: t2 :: ts2)).drop
              (s.col + t.lexeme.length) = 32 :: renderTokens (t2 :: ts2) := by
            rw [hcol, hrt]
            rw [show pre ++ (t.lexeme ++ [32] ++ renderTokens (t2 :: ts2)) =
                (pre ++ t.lexeme) ++ (32 :: renderTokens (t2 :: ts2)) from by simp]
            rw [show pre.length + t.lexeme.length = (pre ++ t.lexeme).length from
              (List.length_append _ _).symm]
            exact List.drop_left _ _
          have hg32 : (pre ++ renderTokens (t :: t2 :: ts2)).get?
              (s.col + t.lexeme.length) = some 32 := get?_head_of_drop hdrop2
          rw [scanLoop_space_step (pre ++ renderTokens (t :: t2 :: ts2)) f2
            {s with
              start := s.col, col := s.col + t.lexeme.length,
              tokens := s.tokens ++
                [⟨t.tokenType, lex, s.line, s.col + t.lexeme.length, lit⟩]}
            (by dsimp only
                rw [hcol, hrt]
                simp only [List.length_append, List.length_cons]
                omega)
            hg32]
          have hsrc2 : pre ++ renderTokens (t :: t2 :: ts2) =
              (pre ++ t.lexeme ++ [32]) ++ renderTokens (t2 :: ts2) := by
            rw [hrt]; simp
          rw [hsrc2]
          obtain ⟨st, hloop, made, hst, hmap⟩ := ih f2 (pre ++ t.lexeme ++ [32])
            {s with
              start := s.col + t.lexeme.length,
              col := s.col + t.lexeme.length + 1,
              tokens := s.tokens ++
                [⟨t.tokenType, lex, s.line, s.col + t.lexeme.length, lit⟩]}
            (fun tk htk => hall tk (List.mem_cons_of_mem t htk))
            (by dsimp only
                rw [hcol]
                simp only [List.length_append, List.length_cons, List.length_nil])
            (by rw [hrt] at hfuel
                simp only [List.length_append, List.length_cons, List.length_nil] at hfuel
                omega)
          refine ⟨st, ?_, ⟨t.tokenType, lex, s.line, s.col + t.lexeme.length, lit⟩ :: made,
            ?_, ?_⟩
          · exact hloop
          · rw [hst]
            simp
          · simp [hmap]

/- ### Round-trip development: inverting the token-emitting handlers -/

theorem slice_one {src : List Nat} {i c : Nat} (h : src.get? i = some c) :
    sliceOpt src i (i + 1) = some [c] := by
  have hi : i < src.length := (List.get?_eq_some.mp h).1
  unfold sliceOpt
  rw [if_pos ⟨by omega, by omega⟩]
  rw [get?_drop_cons h]
  congr 1
  have h1 : i + 1 - i = 1 := by omega
  rw [h1]
  rfl

theorem slice_two {src : List Nat} {i c d : Nat} (h1 : src.get? i = some c)
    (h2 : src.get? (i + 1) = some d) :
    sliceOpt src i (i + 1 + 1) = some [c, d] := by
  have hi : i + 1 < src.length := (List.get?_eq_some.mp h2).1
  unfold sliceOpt
  rw [if_pos ⟨by omega, by omega⟩]
  rw [get?_drop_cons h1, get?_drop_cons h2]
  congr 1
  have hx : i + 1 + 1 - i = 2 := by omega
  rw [hx]
  rfl

theorem advance_if_parts (src : List Nat) (e : Nat) (s : ScanState) :
    (advance_if src e s = (true, {s with col := s.col + 1}) ∧
      src.get? s.col = some e) ∨
    advance_if src e s = (false, s) := by
  cases hg : src.get? s.col with
  | none =>
    right
    unfold advance_if
    rw [peek_false, hg]
    rfl
  | some c =>
    by_cases hc : (c == e) = true
    · left
      refine ⟨?_, ?_⟩
      · unfold advance_if
        rw [peek_false, hg]
        simp [hc]
      · rw [eq_of_beq hc]
    · right
      unfold advance_if
      rw [peek_false, hg]
      simp [hc]

theorem add_token_eq_of_slice {src : List Nat} {k : TokenType} {s t : ScanState}
    {w : List Nat} (hk : isLiteralKind k = false)
    (hsl : sliceOpt src s.start s.col = some w)
    (h : add_token src k s = some t) :
    t = {s with tokens := s.tokens ++ [⟨k, w, s.line, s.col, none⟩]} := by
  cases k <;>
    simp_all [add_token, add_token_literal, isLiteralKind,
      Option.ite_none_right_eq_some]

theorem maxAlnumRun_all (src : List Nat) (i : Nat) :
    ∀ x ∈ maxAlnumRun src i, isAlphanumeric x = true := by
  intro x hx
  exact List.mem_takeWhile_imp hx

theorem maxAlnumRun_slice {src : List Nat} {i : Nat} (hi : i < src.length) :
    sliceOpt src i (i + (maxAlnumRun src i).length) = some (maxAlnumRun src i) := by
  have hrunlen : (maxAlnumRun src i).length ≤ src.length - i := by
    have := (List.takeWhile_prefix (l := src.drop i) isAlphanumeric).length_le
    simpa [maxAlnumRun] using this
  unfold sliceOpt
  rw [if_pos ⟨by omega, by omega⟩]
  obtain ⟨t2, ht⟩ := List.takeWhile_prefix (l := src.drop i) isAlphanumeric
  congr 1
  have h2 : i + (maxAlnumRun src i).length - i = (maxAlnumRun src i).length := by
    omega
  rw [h2, ← ht]
  exact List.take_left _ _

/-- A keyword-table hit pins the token text to the keyword's spelling. -/
theorem keywordLookup_cleanLex {w : List Nat} {tt : TokenType}
    (h : keywordLookup w = some tt) : cleanLex tt w := by
  unfold keywordLookup at h
  cases hf : keywords.find? fun p => p.1 == w with
  | none => rw [hf] at h; cases h
  | some p =>
    rw [hf] at h
    have hmem : p ∈ keywords := List.mem_of_find?_eq_some hf
    have hpw : p.1 = w := by
      have := List.find?_some hf
      simpa using this
    have hptt : p.2 = tt := by simpa using h
    rw [← hptt, ← hpw]
    fin_cases hmem <;> rfl

/-- `Scanner::identifier` panics (invalid UTF-8 in `from_utf8.unwrap`) when
the alphanumeric run is not valid UTF-8. -/
theorem identifier_invalid {src : List Nat} {s : ScanState} {b : Nat}
    (hstart : s.start = s.col) (hb : src.get? s.col = some b)
    (hba : isAsciiAlpha b = true)
    (hv : utf8Valid (maxAlnumRun src s.col) = false) :
    identifier src {s with col := s.col + 1} = none := by
  have hcl : s.col < src.length := (List.get?_eq_some.mp hb).1
  have hbal : isAlphanumeric b = true := by simp [isAlphanumeric, hba]
  have hd : src.drop s.col = b :: src.drop (s.col + 1) := get?_drop_cons hb
  have hrun : maxAlnumRun src s.col =
      b :: (src.drop (s.col + 1)).takeWhile isAlphanumeric := by
    unfold maxAlnumRun
    rw [hd]
    simp [List.takeWhile_cons, hbal]
  unfold identifier
  rw [identifierSkip_spec src (src.length + 2) {s with col := s.col + 1}
    (by show src.length ≤ s.col + 1 + (src.length + 2); omega)]
  have hcol : s.col + 1 + ((src.drop (s.col + 1)).takeWhile isAlphanumeric).length =
      s.col + (maxAlnumRun src s.col).length := by
    rw [hrun]
    simp
    omega
  simp only [show ({s with col := s.col + 1} : ScanState).col = s.col + 1 from rfl,
    show ({s with col := s.col + 1} : ScanState).start = s.start from rfl]
  rw [hstart]
  simp only [hcol]
  rw [maxAlnumRun_slice hcl]
  simp [hv]

/- ### Round-trip development: every emitted token is a `String` token or has
a clean lexeme -/

theorem clean_step_single {src : List Nat} {s t : ScanState} {k : TokenType}
    {c : Nat} (hk : isLiteralKind k = false) (hstart : s.start = s.col)
    (hg : src.get? s.col = some c)
    (h : add_token src k {s with col := s.col + 1} = some t)
    (hcl : cleanLex k [c]) :
    ∀ tk ∈ t.tokens, tk ∈ s.tokens ∨ tk.tokenType = .String ∨
      cleanLex tk.tokenType tk.lexeme := by
  have hsl : sliceOpt src ({s with col := s.col + 1} : ScanState).start
      ({s with col := s.col + 1} : ScanState).col = some [c] := by
    dsimp only
    rw [hstart]
    exact slice_one hg
  have ht := add_token_eq_of_slice hk hsl h
  subst ht
  intro tk htk
  dsimp only at htk
  rcases List.mem_append.mp htk with hm | hm
  · exact Or.inl hm
  · rw [List.mem_singleton] at hm
    subst hm
    exact Or.inr (Or.inr hcl)

theorem clean_step_double {src : List Nat} {s t : ScanState} {k : TokenType}
    {c : Nat} (hk : isLiteralKind k = false) (hstart : s.start = s.col)
    (hg : src.get? s.col = some c) (hge : src.get? (s.col + 1) = some 61)
    (h : add_token src k {s with col := s.col + 1 + 1} = some t)
    (hcl : cleanLex k [c, 61]) :
    ∀ tk ∈ t.tokens, tk ∈ s.tokens ∨ tk.tokenType = .String ∨
      cleanLex tk.tokenType tk.lexeme := by
  have hsl : sliceOpt src ({s with col := s.col + 1 + 1} : ScanState).start
      ({s with col := s.col + 1 + 1} : ScanState).col = some [c, 61] := by
    dsimp only
    rw [hstart]
    exact slice_two hg hge
  have ht := add_token_eq_of_slice hk hsl h
  subst ht
  intro tk htk
  dsimp only at htk
  rcases List.mem_append.mp htk with hm | hm
  · exact Or.inl hm
  · rw [List.mem_singleton] at hm
    subst hm
    exact Or.inr (Or.inr hcl)

/-- Every token emitted by one `scan_lexeme` step (from a state with `start =
col`, as the scanner loop arranges) is either an old token, a `String` token,
or carries a clean lexeme for its kind. -/
theorem scanLexeme_clean {src : List Nat} {s t : ScanState}
    (hstart : s.start = s.col) (h : scanLexeme src s = some t) :
    ∀ tk ∈ t.tokens, tk ∈ s.tokens ∨ tk.tokenType = .String ∨
      cleanLex tk.tokenType tk.lexeme := by
  unfold scanLexeme at h
  cases hg : src.get? s.col with
  | none => rw [hg] at h; cases h
  | some c =>
    rw [hg] at h
    dsimp only at h
    by_cases hb0 : (c == 123) = true
    · rw [if_pos hb0] at h
      unfold left_brace at h
      have hc : c = 123 := eq_of_beq hb0
      subst hc
      exact clean_step_single (by decide) hstart hg h
        (rfl : ([123] : List Nat) = strBytes "\x7b")
    · rw [if_neg hb0] at h
      by_cases hb1 : (c == 125) = true
      · rw [if_pos hb1] at h
        unfold right_brace at h
        have hc : c = 125 := eq_of_beq hb1
        subst hc
        exact clean_step_single (by decide) hstart hg h
          (rfl : ([125] : List Nat) = strBytes "\x7d")
      · rw [if_neg hb1] at h
        by_cases hb2 : (c == 40) = true
        · rw [if_pos hb2] at h
          unfold left_paren at h
          have hc : c = 40 := eq_of_beq hb2
          subst hc
          exact clean_step_single (by decide) hstart hg h
            (rfl : ([40] : List Nat) = strBytes "(")
        · rw [if_neg hb2] at h
          by_cases hb3 : (c == 41) = true
          · rw [if_pos hb3] at h
            unfold right_paren at h
            have hc : c = 41 := eq_of_beq hb3
            subst hc
            exact clean_step_single (by decide) hstart hg h
              (rfl : ([41] : List Nat) = strBytes ")")
          · rw [if_neg hb3] at h
            by_cases hb4 : (c == 44) = true
            · rw [if_pos hb4] at h
              unfold comma at h
              have hc : c = 44 := eq_of_beq hb4
              subst hc
              exact clean_step_single (by decide) hstart hg h
                (rfl : ([44] : List Nat) = strBytes ",")
            · rw [if_neg hb4] at h
              by_cases hb5 : (c == 46) = true
              · rw [if_pos hb5] at h
                unfold dot at h
                have hc : c = 46 := eq_of_beq hb5
                subst hc
                exact clean_step_single (by decide) hstart hg h
                  (rfl : ([46] : List Nat) = strBytes ".")
              · rw [if_neg hb5] at h
                by_cases hb6 : (c == 45) = true
                · rw [if_pos hb6] at h
                  unfold minus at h
                  have hc : c = 45 := eq_of_beq hb6
                  subst hc
                  exact clean_step_single (by decide) hstart hg h
                    (rfl : ([45] : List Nat) = strBytes "-")
                · rw [if_neg hb6] at h
                  by_cases hb7 : (c == 43) = true
                  · rw [if_pos hb7] at h
                    unfold plus at h
                    have hc : c = 43 := eq_of_beq hb7
                    subst hc
                    exact clean_step_single (by decide) hstart hg h
                      (rfl : ([43] : List Nat) = strBytes "+")
                  · rw [if_neg hb7] at h
                    by_cases hb8 : (c == 59) = true
                    · rw [if_pos hb8] at h
                      unfold semicolon at h
                      have hc : c = 59 := eq_of_beq hb8
                      subst hc
                      exact clean_step_single (by decide) hstart hg h
                        (rfl : ([59] : List Nat) = strBytes ";")
                    · rw [if_neg hb8] at h
                      by_cases hb9 : (c == 42) = true
                      · rw [if_pos hb9] at h
                        unfold star at h
                        have hc : c = 42 := eq_of_beq hb9
                        subst hc
                        exact clean_step_single (by decide) hstart hg h
                          (rfl : ([42] : List Nat) = strBytes "*")
                      · rw [if_neg hb9] at h
                        by_cases hb10 : (c == 34) = true
                        · rw [if_pos hb10] at h
                          unfold string at h
                          dsimp only at h
                          split at h
                          · cases h
                            intro tk htk
                            dsimp only [add_error] at htk
                            rw [(stringLoop_shape src (src.length + 2) {s with col := s.col + 1}).1] at htk
                            exact Or.inl htk
                          · split at h
                            · cases h
                            · split at h
                              · obtain ⟨lex2, ht⟩ := add_token_literal_some h
                                subst ht
                                intro tk htk
                                dsimp only at htk
                                rcases List.mem_append.mp htk with hm | hm
                                · rw [(stringLoop_shape src (src.length + 2) {s with col := s.col + 1}).1] at hm
                                  exact Or.inl hm
                                · rw [List.mem_singleton] at hm
                                  subst hm
                                  exact Or.inr (Or.inl rfl)
                              · cases h
                        · rw [if_neg hb10] at h
                          by_cases hb11 : (c == 32 || c == 13 || c == 9) = true
                          · rw [if_pos hb11] at h
                            cases h
                            intro tk htk
                            exact Or.inl htk
                          · rw [if_neg hb11] at h
                            by_cases hb12 : (c == 10) = true
                            · rw [if_pos hb12] at h
                              cases h
                              intro tk htk
                              exact Or.inl htk
                            · rw [if_neg hb12] at h
                              by_cases hb13 : (c == 33) = true
                              · rw [if_pos hb13] at h
                                unfold bang at h
                                dsimp only at h
                                have hc : c = 33 := eq_of_beq hb13
                                subst hc
                                rcases advance_if_parts src 61 {s with col := s.col + 1} with ⟨ha, hge⟩ | ha
                                · rw [ha] at h
                                  dsimp only at h
                                  rw [if_pos rfl] at h
                                  exact clean_step_double (by decide) hstart hg hge h
                                    (rfl : ([33, 61] : List Nat) = strBytes "!=")
                                · rw [ha] at h
                                  dsimp only at h
                                  rw [if_neg Bool.false_ne_true] at h
                                  exact clean_step_single (by decide) hstart hg h
                                    (rfl : ([33] : List Nat) = strBytes "!")
                              · rw [if_neg hb13] at h
                                by_cases hb14 : (c == 61) = true
                                · rw [if_pos hb14] at h
                                  unfold equal at h
                                  dsimp only at h
                                  have hc : c = 61 := eq_of_beq hb14
                                  subst hc
                                  rcases advance_if_parts src 61 {s with col := s.col + 1} with ⟨ha, hge⟩ | ha
                                  · rw [ha] at h
                                    dsimp only at h
                                    rw [if_pos rfl] at h
                                    exact clean_step_double (by decide) hstart hg hge h
                                      (rfl : ([61, 61] : List Nat) = strBytes "==")
                                  · rw [ha] at h
                                    dsimp only at h
                                    rw [if_neg Bool.false_ne_true] at h
                                    exact clean_step_single (by decide) hstart hg h
                                      (rfl : ([61] : List Nat) = strBytes "=")
                                · rw [if_neg hb14] at h
                                  by_cases hb15 : (c == 62) = true
                                  · rw [if_pos hb15] at h
                                    unfold greater at h
                                    dsimp only at h
                                    have hc : c = 62 := eq_of_beq hb15
                                    subst hc
                                    rcases advance_if_parts src 61 {s with col := s.col + 1} with ⟨ha, hge⟩ | ha
                                    · rw [ha] at h
                                      dsimp only at h
                                      rw [if_pos rfl] at h
                                      exact clean_step_double (by decide) hstart hg hge h
                                        (rfl : ([62, 61] : List Nat) = strBytes ">=")
                                    · rw [ha] at h
                                      dsimp only at h
                                      rw [if_neg Bool.false_ne_true] at h
                                      exact clean_step_single (by decide) hstart hg h
                                        (rfl : ([62] : List Nat) = strBytes ">")
                                  · rw [if_neg hb15] at h
                                    by_cases hb16 : (c == 60) = true
                                    · rw [if_pos hb16] at h
                                      unfold lesser at h
                                      dsimp only at h
                                      have hc : c = 60 := eq_of_beq hb16
                                      subst hc
                                      rcases advance_if_parts src 61 {s with col := s.col + 1} with ⟨ha, hge⟩ | ha
                                      · rw [ha] at h
                                        dsimp only at h
                                        rw [if_pos rfl] at h
                                        exact clean_step_double (by decide) hstart hg hge h
                                          (rfl : ([60, 61] : List Nat) = strBytes "<=")
                                      · rw [ha] at h
                                        dsimp only at h
                                        rw [if_neg Bool.false_ne_true] at h
                                        exact clean_step_single (by decide) hstart hg h
                                          (rfl : ([60] : List Nat) = strBytes "<")
                                    · rw [if_neg hb16] at h
                                      by_cases hb17 : (c == 47) = true
                                      · rw [if_pos hb17] at h
                                        unfold slash at h
                                        dsimp only at h
                                        have hc : c = 47 := eq_of_beq hb17
                                        subst hc
                                        rcases advance_if_parts src 47 {s with col := s.col + 1} with ⟨ha, hge⟩ | ha
                                        · rw [ha] at h
                                          dsimp only at h
                                          rw [if_pos rfl] at h
                                          cases h
                                          intro tk htk
                                          dsimp only [comment] at htk
                                          rw [(commentSkip_shape src (src.length + 2) _).1] at htk
                                          exact Or.inl htk
                                        · rw [ha] at h
                                          dsimp only at h
                                          rw [if_neg Bool.false_ne_true] at h
                                          rcases advance_if_parts src 42 {s with col := s.col + 1} with ⟨hb2, hge2⟩ | hb2
                                          · rw [hb2] at h
                                            dsimp only at h
                                            rw [if_pos rfl] at h
                                            cases h
                                            intro tk htk
                                            dsimp only [blockComment] at htk
                                            split at htk
                                            · dsimp only [add_error] at htk
                                              rw [(blockCommentLoop_shape src (src.length + 2) _).1] at htk
                                              exact Or.inl htk
                                            · rw [(blockCommentLoop_shape src (src.length + 2) _).1] at htk
                                              exact Or.inl htk
                                          · rw [hb2] at h
                                            dsimp only at h
                                            rw [if_neg Bool.false_ne_true] at h
                                            exact clean_step_single (by decide) hstart hg h
                                              (rfl : ([47] : List Nat) = strBytes "/")
                                      · rw [if_neg hb17] at h
                                        by_cases hb18 : (c == 63) = true
                                        · rw [if_pos hb18] at h
                                          unfold question at h
                                          have hc : c = 63 := eq_of_beq hb18
                                          subst hc
                                          exact clean_step_single (by decide) hstart hg h
                                            (rfl : ([63] : List Nat) = strBytes "?")
                                        · rw [if_neg hb18] at h
                                          by_cases hb19 : (c == 58) = true
                                          · rw [if_pos hb19] at h
                                            unfold colon at h
                                            have hc : c = 58 := eq_of_beq hb19
                                            subst hc
                                            exact clean_step_single (by decide) hstart hg h
                                              (rfl : ([58] : List Nat) = strBytes ":")
                                          · rw [if_neg hb19] at h
                                            by_cases hb20 : isDigit c = true
                                            · rw [if_pos hb20] at h
                                              unfold number at h
                                              dsimp only at h
                                              split at h
                                              · cases h
                                              · split at h
                                                · split at h
                                                  · rename_i v hv2
                                                    rw [add_token_literal_lit src .Number (.Number v) _ rfl] at h
                                                    cases h
                                                    intro tk htk
                                                    dsimp only at htk
                                                    rcases List.mem_append.mp htk with hm | hm
                                                    · rw [(numberSkip_shape src (src.length + 2) {s with col := s.col + 1}).1] at hm
                                                      exact Or.inl hm
                                                    · rw [List.mem_singleton] at hm
                                                      subst hm
                                                      exact Or.inr (Or.inr ⟨v, rfl⟩)
                                                  · cases h
                                                · cases h
                                            · rw [if_neg hb20] at h
                                              by_cases hb21 : isAsciiAlpha c = true
                                              · rw [if_pos hb21] at h
                                                cases hv : utf8Valid (maxAlnumRun src s.col) with
                                                | false =>
                                                  rw [identifier_invalid hstart hg hb21 hv] at h
                                                  cases h
                                                | true =>
                                                  have hspec := identifier_run_spec src s c hstart hg hb21 hv
                                                  rw [scanLexeme_alpha src s c hg hb21] at hspec
                                                  rw [hspec] at h
                                                  cases h
                                                  intro tk htk
                                                  dsimp only at htk
                                                  rcases List.mem_append.mp htk with hm | hm
                                                  · exact Or.inl hm
                                                  · rw [List.mem_singleton] at hm
                                                    subst hm
                                                    cases hk : keywordLookup (maxAlnumRun src s.col) with
                                                    | some tt =>
                                                      refine Or.inr (Or.inr ?_)
                                                      dsimp only
                                                      exact keywordLookup_cleanLex hk
                                                    | none =>
                                                      refine Or.inr (Or.inr ?_)
                                                      dsimp only
                                                      have hbal : isAlphanumeric c = true := by
                                                        simp [isAlphanumeric, hb21]
                                                      refine ⟨⟨c, (src.drop (s.col + 1)).takeWhile isAlphanumeric, ?_, hb21⟩,
                                                        fun x hx => maxAlnumRun_all src s.col x hx, hv, hk⟩
                                                      unfold maxAlnumRun
                                                      rw [get?_drop_cons hg]
                                                      simp [List.takeWhile_cons, hbal]
                                              · rw [if_neg hb21] at h
                                                cases h
                                                intro tk htk
                                                dsimp only [add_error] at htk
                                                exact Or.inl htk

/-- All tokens of a completed scan are `String` tokens or carry clean
lexemes. -/
theorem scanLoop_clean (src : List Nat) : ∀ (fuel : Nat) (s st : ScanState),
    scanLoop src fuel s = some st →
    (∀ tk ∈ s.tokens, tk.tokenType = .String ∨ cleanLex tk.tokenType tk.lexeme) →
    ∀ tk ∈ st.tokens, tk.tokenType = .String ∨ cleanLex tk.tokenType tk.lexeme := by
  intro fuel
  induction fuel with
  | zero =>
    intro s st h _
    cases h
  | succ fuel ih =>
    intro s st h hbase
    simp only [scanLoop] at h
    by_cases hc : s.col < src.length
    · rw [if_pos hc] at h
      cases hsc : scanLexeme src {s with start := s.col} with
      | none => rw [hsc] at h; cases h
      | some u =>
        rw [hsc] at h
        refine ih u st h ?_
        intro tk htk
        rcases scanLexeme_clean rfl hsc tk htk with hm | hs | hcl
        · exact hbase tk hm
        · exact Or.inl hs
        · exact Or.inr hcl
    · rw [if_neg hc] at h
      cases h
      exact hbase

/-- Every successful `scan_lexeme` is a well-behaved step. -/
theorem scanLexeme_stepOK {src : List Nat} {s t : ScanState}
    (h : scanLexeme src s = some t) : stepOK s t := by
  unfold scanLexeme at h
  cases hg : src.get? s.col with
  | none => rw [hg] at h; cases h
  | some c =>
    rw [hg] at h
    dsimp only at h
    have step1 : stepOK s {s with col := s.col + 1} :=
      stepOK_same_tokens rfl (Nat.le_succ s.col)
    by_cases h0 : (c == 123) = true
    · rw [if_pos h0] at h
      unfold left_brace add_token at h
      exact stepOK_trans step1 (add_token_stepOK h)
    · rw [if_neg h0] at h
      by_cases h1 : (c == 125) = true
      · rw [if_pos h1] at h
        unfold right_brace add_token at h
        exact stepOK_trans step1 (add_token_stepOK h)
      · rw [if_neg h1] at h
        by_cases h2 : (c == 40) = true
        · rw [if_pos h2] at h
          unfold left_paren add_token at h
          exact stepOK_trans step1 (add_token_stepOK h)
        · rw [if_neg h2] at h
          by_cases h3 : (c == 41) = true
          · rw [if_pos h3] at h
            unfold right_paren add_token at h
            exact stepOK_trans step1 (add_token_stepOK h)
          · rw [if_neg h3] at h
            by_cases h4 : (c == 44) = true
            · rw [if_pos h4] at h
              unfold comma add_token at h
              exact stepOK_trans step1 (add_token_stepOK h)
            · rw [if_neg h4] at h
              by_cases h5 : (c == 46) = true
              · rw [if_pos h5] at h
                unfold dot add_token at h
                exact stepOK_trans step1 (add_token_stepOK h)
              · rw [if_neg h5] at h
                by_cases h6 : (c == 45) = true
                · rw [if_pos h6] at h
                  unfold minus add_token at h
                  exact stepOK_trans step1 (add_token_stepOK h)
                · rw [if_neg h6] at h
                  by_cases h7 : (c == 43) = true
                  · rw [if_pos h7] at h
                    unfold plus add_token at h
                    exact stepOK_trans step1 (add_token_stepOK h)
                  · rw [if_neg h7] at h
                    by_cases h8 : (c == 59) = true
                    · rw [if_pos h8] at h
                      unfold semicolon add_token at h
                      exact stepOK_trans step1 (add_token_stepOK h)
                    · rw [if_neg h8] at h
                      by_cases h9 : (c == 42) = true
                      · rw [if_pos h9] at h
                        unfold star add_token at h
                        exact stepOK_trans step1 (add_token_stepOK h)
                      · rw [if_neg h9] at h
                        by_cases h10 : (c == 34) = true
                        · rw [if_pos h10] at h
                          exact stepOK_trans step1 (string_stepOK h)
                        · rw [if_neg h10] at h
                          by_cases h11 : (c == 32 || c == 13 || c == 9) = true
                          · rw [if_pos h11] at h
                            cases h; exact step1
                          · rw [if_neg h11] at h
                            by_cases h12 : (c == 10) = true
                            · rw [if_pos h12] at h
                              cases h; exact stepOK_same_tokens rfl (Nat.le_succ s.col)
                            · rw [if_neg h12] at h
                              by_cases h13 : (c == 33) = true
                              · rw [if_pos h13] at h
                                unfold bang at h
                                exact stepOK_trans step1 (op2_stepOK h)
                              · rw [if_neg h13] at h
                                by_cases h14 : (c == 61) = true
                                · rw [if_pos h14] at h
                                  unfold equal at h
                                  exact stepOK_trans step1 (op2_stepOK h)
                                · rw [if_neg h14] at h
                                  by_cases h15 : (c == 62) = true
                                  · rw [if_pos h15] at h
                                    unfold greater at h
                                    exact stepOK_trans step1 (op2_stepOK h)
                                  · rw [if_neg h15] at h
                                    by_cases h16 : (c == 60) = true
                                    · rw [if_pos h16] at h
                                      unfold lesser at h
                                      exact stepOK_trans step1 (op2_stepOK h)
                                    · rw [if_neg h16] at h
                                      by_cases h17 : (c == 47) = true
                                      · rw [if_pos h17] at h
                                        exact stepOK_trans step1 (slash_stepOK h)
                                      · rw [if_neg h17] at h
                                        by_cases h18 : (c == 63) = true
                                        · rw [if_pos h18] at h
                                          unfold question add_token at h
                                          exact stepOK_trans step1 (add_token_stepOK h)
                                        · rw [if_neg h18] at h
                                          by_cases h19 : (c == 58) = true
                                          · rw [if_pos h19] at h
                                            unfold colon add_token at h
                                            exact stepOK_trans step1 (add_token_stepOK h)
                                          · rw [if_neg h19] at h
                                            by_cases h20 : isDigit c = true
                                            · rw [if_pos h20] at h
                                              exact stepOK_trans step1 (number_stepOK h)
                                            · rw [if_neg h20] at h
                                              by_cases h21 : isAsciiAlpha c = true
                                              · rw [if_pos h21] at h
                                                exact stepOK_trans step1 (identifier_stepOK h)
                                              · rw [if_neg h21] at h
                                                cases h
                                                exact stepOK_same_tokens rfl (Nat.le_succ s.col)


theorem colInv_step {s t : ScanState} (hi : colInv s) (hs : stepOK s t) :
    colInv t := by
  obtain ⟨hch, hb⟩ := hi
  obtain ⟨hc, new, he, hchn, hbn⟩ := hs
  constructor
  · rw [he, List.map_append, List.chain'_append]
    refine ⟨hch, hchn, ?_⟩
    intro x hx y hy
    obtain ⟨tk1, htk1, rfl⟩ := List.exists_of_mem_map (List.mem_of_mem_getLast? hx)
    obtain ⟨tk2, htk2, rfl⟩ := List.exists_of_mem_map (List.mem_of_mem_head? hy)
    exact le_trans (hb tk1 htk1) (hbn tk2 htk2).1
  · intro tk htk
    rw [he] at htk
    rcases List.mem_append.mp htk with hm | hm
    · exact le_trans (hb tk hm) hc
    · exact (hbn tk hm).2

theorem scanLoop_colInv (src : List Nat) :
    ∀ fuel (s t : ScanState), colInv s → scanLoop src fuel s = some t →
      colInv t := by
  intro fuel
  induction fuel with
  | zero => intro s t _ h; cases h
  | succ fuel ih =>
    intro s t hi h
    unfold scanLoop at h
    split at h
    · cases hx : scanLexeme src {s with start := s.col} with
      | none => rw [hx] at h; cases h
      | some u =>
        rw [hx] at h
        exact ih u t
          (@colInv_step {s with start := s.col} u hi (scanLexeme_stepOK hx)) h
    · cases h; exact hi

/-- C10: the scanner's column counter counts bytes consumed since the start
of the whole input and is never reset at a newline: the newline table entry
changes only `line`; consequently recorded token columns are non-decreasing
across the entire scan (never restarting per line) and bounded by the final
column, and concretely `ab` newline `cd` yields token columns 2 and 5 on
lines 1 and 2, while the diagnostic for `ab` newline `~` carries the
absolute column 4 on line 2. -/
theorem c10_column_absolute :
    (∀ s : ScanState, (newlineLexop s).col = s.col) ∧
    (∀ (input : List Nat) (st : ScanState), runScanner input = some st →
      ((st.tokens.map Token.col).Chain' (· ≤ ·) ∧
        ∀ tk ∈ st.tokens, tk.col ≤ st.col)) ∧
    ((runScanner (strBytes "ab\ncd")).map
        (fun st => st.tokens.map (fun tk => (tk.col, tk.line))) =
      some [(2, 1), (5, 2)]) ∧
    ((runScanner (strBytes "ab\n~")).map
        (fun st => st.errors.map (fun e => (e.col, e.line))) =
      some [(4, 2)]) := by
  refine ⟨fun s => rfl, ?_, by decide, by decide⟩
  intro input st h
  exact scanLoop_colInv input (input.length + 2) initState st
    ⟨by decide, by decide⟩ h

/-- C10 witness: the universal monotonicity instantiated at the concrete
input `ab` newline `cd`. -/
theorem c10_column_absolute_witness :
    (([⟨.Identifier, strBytes "ab", 1, 2, some (.Identifier (strBytes "ab"))⟩,
       ⟨.Identifier, strBytes "cd", 2, 5, some (.Identifier (strBytes "cd"))⟩] :
      List Token).map Token.col).Chain' (· ≤ ·) :=
  (c10_column_absolute.2.1 (strBytes "ab\ncd")
    ⟨[⟨.Identifier, strBytes "ab", 1, 2, some (.Identifier (strBytes "ab"))⟩,
      ⟨.Identifier, strBytes "cd", 2, 5, some (.Identifier (strBytes "cd"))⟩],
     [], 3, 5, 2⟩ (by decide)).1

/-- C1: the claim says the token sequence is not returned to the caller when
a diagnostic was recorded.  The free `scan_tokens` of `src/scanner.rs`
contradicts this: on the input `~+` one diagnostic is recorded (for `~`),
yet the caller still receives the token sequence `[Plus]` — tokens and the
recorded diagnostic list coexist. -/
theorem c1_tokens_returned_despite_diagnostics :
    scan_tokens (strBytes "~+") = some [⟨.Plus, strBytes "+", 1, 2, none⟩] ∧
    (runScanner (strBytes "~+")).map (fun st => st.errors.length) = some 1 := by
  constructor <;> rfl

/-- C2: the claim says an unterminated block comment records an "Unterminated
block comment." diagnostic.  The code never does: on `/*abc` — a block
comment reaching end-of-input with no `*/` — the scan completes with no
tokens and, contrary to the claim, no diagnostics (the closure's
end-of-input `Err` branch is unreachable because `advance_until` exits first
when `peek` is exhausted). -/
theorem c2_unterminated_block_comment_silent :
    (runScanner (strBytes "/*abc")).map (fun st => (st.tokens, st.errors)) =
      some ([], []) := by
  rfl

/-- C3 counterexample: `eof` is not among the sixteen reserved keyword texts
listed by the claim, so the claim requires it to scan to an `Identifier`; the
scanner's keyword table has a seventeenth entry mapping it to the `Eof` kind
instead. -/
theorem c3_eof_counterexample :
    (runScanner (strBytes "eof")).map (fun st => st.tokens.map Token.tokenType) =
      some [.Eof] ∧ TokenType.Eof ≠ TokenType.Identifier := by
  constructor
  · rfl
  · intro h
    cases h

/-- C4: `"12.3 12..3"` scans to `Number(12.3) Number(12.0) Dot Dot
Number(3.0)` with no diagnostics — after a digit run a `.` is consumed only
when a digit follows it immediately.  (`F64` values: `⟨123, 1⟩` = 12.3,
`⟨12, 0⟩` = 12.0, `⟨3, 0⟩` = 3.0.) -/
theorem c4_number_dot_rule :
    (runScanner (strBytes "12.3 12..3")).map
        (fun st => (st.tokens.map (fun t => (t.tokenType, t.literal)), st.errors)) =
      some ([(.Number, some (.Number ⟨123, 1⟩)),
             (.Number, some (.Number ⟨12, 0⟩)),
             (.Dot, none), (.Dot, none),
             (.Number, some (.Number ⟨3, 0⟩))], []) := by
  rfl

/-- C5 counterexample: parsing the tokens of `"1 + 2 * 3"` does not render as
`(+ 1 (* 2 3))` — `Lit` prints its type-erased boxed `Option<f64>` with
`{:?}`, so number literals render as `Some(1.0)`, not `1`. -/
theorem c5_rendering_counterexample :
    ¬ (((scan_tokens (strBytes "1 + 2 * 3")).bind parse).map Expr.displayFmt =
      some (strBytes "(+ 1 (* 2 3))")) := by
  have h : scan_tokens (strBytes "1 + 2 * 3") = some
      [⟨.Number, [49], 1, 1, some (.Number ⟨1, 0⟩)⟩,
       ⟨.Plus, [43], 1, 3, none⟩,
       ⟨.Number, [50], 1, 5, some (.Number ⟨2, 0⟩)⟩,
       ⟨.Star, [42], 1, 7, none⟩,
       ⟨.Number, [51], 1, 9, some (.Number ⟨3, 0⟩)⟩] := by decide
  rw [h]
  decide

/-- C5 amended: the tree shapes are as claimed — multiplication below
addition, and the parenthesized sum wrapped in a `Grouping` as the left
operand of the multiplication — but each number literal renders as the
`Debug` form of its boxed `Option<f64>`: `(+ Some(1.0) (* Some(2.0)
Some(3.0)))` and `(* (grp (+ Some(1.0) Some(2.0))) Some(3.0))`. -/
theorem c5_precedence_and_grouping :
    (((scan_tokens (strBytes "1 + 2 * 3")).bind parse).map Expr.displayFmt =
      some (strBytes "(+ Some(1.0) (* Some(2.0) Some(3.0)))")) ∧
    (((scan_tokens (strBytes "(1 + 2) * 3")).bind parse).map Expr.displayFmt =
      some (strBytes "(* (grp (+ Some(1.0) Some(2.0))) Some(3.0))")) := by
  have h1 : scan_tokens (strBytes "1 + 2 * 3") = some
      [⟨.Number, [49], 1, 1, some (.Number ⟨1, 0⟩)⟩,
       ⟨.Plus, [43], 1, 3, none⟩,
       ⟨.Number, [50], 1, 5, some (.Number ⟨2, 0⟩)⟩,
       ⟨.Star, [42], 1, 7, none⟩,
       ⟨.Number, [51], 1, 9, some (.Number ⟨3, 0⟩)⟩] := by decide
  have h2 : scan_tokens (strBytes "(1 + 2) * 3") = some
      [⟨.LeftParen, [40], 1, 1, none⟩,
       ⟨.Number, [49], 1, 2, some (.Number ⟨1, 0⟩)⟩,
       ⟨.Plus, [43], 1, 4, none⟩,
       ⟨.Number, [50], 1, 6, some (.Number ⟨2, 0⟩)⟩,
       ⟨.RightParen, [41], 1, 7, none⟩,
       ⟨.Star, [42], 1, 9, none⟩,
       ⟨.Number, [51], 1, 11, some (.Number ⟨3, 0⟩)⟩] := by decide
  rw [h1, h2]
  constructor <;> decide

/-- C6: the claim says every string literal left unterminated at end-of-input
yields an "Unterminated string" diagnostic.  When the opening quote is the
final byte of the input the code panics instead (`none`): `advance_until`
exits immediately at end-of-input without an error, and the success path then
slices `source[start + 1 .. col - 1]` = `source[1..0]`, a reversed range.
On `"hi` (content after the quote) the diagnostic is recorded as claimed,
and a terminated literal carries exactly the text between the quotes. -/
theorem c6_lone_quote_panics :
    runScanner (strBytes "\"") = none ∧
    (runScanner (strBytes "\"hi")).map
        (fun st => (st.tokens.map Token.tokenType, st.errors.map Error.message)) =
      some ([.Identifier], [strBytes "Lexical Error: Unterminated string."]) ∧
    (runScanner (strBytes "\"hi\"")).map
        (fun st => st.tokens.map (fun t => (t.tokenType, t.literal))) =
      some [(.String, some (.String (strBytes "hi")))] := by
  refine ⟨by decide, by decide, by decide⟩

/-- C7: the claim says `Marcher::advance` never wraps past the maximum index
and never lands on an earlier index than the pre-call position.  The code
uses `overflowing_add`: from the reachable state `curr = 2` (three advances
from `Marcher::new`), `advance(2 ^ 64 - 2)` wraps the position back to index
0 and returns `Some(10)` — an element at an earlier index, not `None`. -/
theorem c7_advance_wraps_to_earlier_index :
    ((((Marcher.new [10, 20, 30]).advance 1).2.advance 1).2.advance 1).2.curr = 2 ∧
    (((((Marcher.new [10, 20, 30]).advance 1).2.advance 1).2.advance 1).2.advance
        (2 ^ 64 - 2)).1 = some 10 ∧
    (((((Marcher.new [10, 20, 30]).advance 1).2.advance 1).2.advance 1).2.advance
        (2 ^ 64 - 2)).2.curr = 0 := by
  refine ⟨?_, ?_, ?_⟩ <;> decide

/-- C9: at the top level, after a fully parsed ternary, each comma makes
`Parser::expression` parse another operand at equality precedence and keep
only the last tree: `1, 2` parses to the literal 2; the operand after the
comma is an equality (`1, 2 == 3` parses to `(== 2 3)`) and not a ternary
(`1, 2 ? 3 : 4` parses to just 2, leaving the `?` unconsumed). -/
theorem c9_comma_sequence_at_expression_root :
    (((scan_tokens (strBytes "1, 2")).bind parse).map Expr.displayFmt =
      some (strBytes "Some(2.0)")) ∧
    (((scan_tokens (strBytes "1, 2 == 3")).bind parse).map Expr.displayFmt =
      some (strBytes "(== Some(2.0) Some(3.0))")) ∧
    (((scan_tokens (strBytes "1, 2 ? 3 : 4")).bind parse).map Expr.displayFmt =
      some (strBytes "Some(2.0)")) := by
  have h1 : scan_tokens (strBytes "1, 2") = some
      [⟨.Number, [49], 1, 1, some (.Number ⟨1, 0⟩)⟩,
       ⟨.Comma, [44], 1, 2, none⟩,
       ⟨.Number, [50], 1, 4, some (.Number ⟨2, 0⟩)⟩] := by decide
  have h2 : scan_tokens (strBytes "1, 2 == 3") = some
      [⟨.Number, [49], 1, 1, some (.Number ⟨1, 0⟩)⟩,
       ⟨.Comma, [44], 1, 2, none⟩,
       ⟨.Number, [50], 1, 4, some (.Number ⟨2, 0⟩)⟩,
       ⟨.EqualEqual, [61, 61], 1, 7, none⟩,
       ⟨.Number, [51], 1, 9, some (.Number ⟨3, 0⟩)⟩] := by decide
  have h3 : scan_tokens (strBytes "1, 2 ? 3 : 4") = some
      [⟨.Number, [49], 1, 1, some (.Number ⟨1, 0⟩)⟩,
       ⟨.Comma, [44], 1, 2, none⟩,
       ⟨.Number, [50], 1, 4, some (.Number ⟨2, 0⟩)⟩,
       ⟨.Question, [63], 1, 6, none⟩,
       ⟨.Number, [51], 1, 8, some (.Number ⟨3, 0⟩)⟩,
       ⟨.Colon, [58], 1, 10, none⟩,
       ⟨.Number, [52], 1, 12, some (.Number ⟨4, 0⟩)⟩] := by decide
  rw [h1, h2, h3]
  refine ⟨by decide, by decide, by decide⟩

/-- C8 counterexample: `"hi"` (a quoted string) scans without diagnostics to
a single `String` token whose lexeme is the bare content between the quotes,
so its rendering is `hi`, and re-scanning that rendering produces an
`Identifier` token, not the original `String` kind. -/
theorem c8_string_round_trip_fails :
    runScanner (strBytes "\"hi\"") = some ⟨[⟨.String, strBytes "hi", 1, 4,
      some (.String (strBytes "hi"))⟩], [], 0, 4, 1⟩ ∧
    renderTokens [⟨.String, strBytes "hi", 1, 4, some (.String (strBytes "hi"))⟩] =
      strBytes "hi" ∧
    (scan_tokens (strBytes "hi")).map (List.map Token.tokenType) =
      some [.Identifier] :=
  ⟨by decide, rfl, by decide⟩

/-- C8 (amended): for every source text whose scan completes and whose token
sequence records no diagnostics and contains no `String` token, re-scanning
the whitespace-separated rendering of the token lexemes completes and
produces exactly the original sequence of token kinds.  (`String` tokens
break the round trip: their lexeme is the content between the quotes, which
rescans as an identifier.) -/
theorem c8_kind_round_trip (input : List Nat) (st : ScanState)
    (hscan : runScanner input = some st) (herr : st.errors = [])
    (hnostr : ∀ tk ∈ st.tokens, tk.tokenType ≠ .String) :
    ∃ l, scan_tokens (renderTokens st.tokens) = some l ∧
      l.map Token.tokenType = st.tokens.map Token.tokenType := by
  have hclean : ∀ tk ∈ st.tokens, cleanLex tk.tokenType tk.lexeme := by
    intro tk htk
    rcases scanLoop_clean input (input.length + 2) initState st hscan
      (by intro tk2 htk2; cases htk2) tk htk with hs | hcl
    · exact absurd hs (hnostr tk htk)
    · exact hcl
  obtain ⟨fin, hloop, made, hst, hmap⟩ := rescan_loop st.tokens
    ((renderTokens st.tokens).length + 2) [] initState hclean rfl (by omega)
  rw [show ([] : List Nat) ++ renderTokens st.tokens = renderTokens st.tokens from
    by simp] at hloop
  refine ⟨fin.tokens, ?_, ?_⟩
  · unfold scan_tokens runScanner
    rw [hloop]
    rfl
  · rw [hst]
    simp [initState, hmap]

/-- C8 witness: the amended round-trip theorem at `var x = 12.30 + 7`, whose
scan yields kinds Var Identifier Equal Number Plus Number with the `Number`
lexeme already normalized to `12.3`; the rendering rescans to the same kind
sequence. -/
theorem c8_kind_round_trip_witness :
    ∃ l, scan_tokens (renderTokens [⟨.Var, strBytes "var", 1, 3, none⟩,
      ⟨.Identifier, strBytes "x", 1, 5, some (.Identifier (strBytes "x"))⟩,
      ⟨.Equal, strBytes "=", 1, 7, none⟩,
      ⟨.Number, strBytes "12.3", 1, 13, some (.Number ⟨123, 1⟩)⟩,
      ⟨.Plus, strBytes "+", 1, 15, none⟩,
      ⟨.Number, strBytes "7", 1, 17, some (.Number ⟨7, 0⟩)⟩]) = some l ∧
      l.map Token.tokenType = [⟨.Var, strBytes "var", 1, 3, none⟩,
      ⟨.Identifier, strBytes "x", 1, 5, some (.Identifier (strBytes "x"))⟩,
      ⟨.Equal, strBytes "=", 1, 7, none⟩,
      ⟨.Number, strBytes "12.3", 1, 13, some (.Number ⟨123, 1⟩)⟩,
      ⟨.Plus, strBytes "+", 1, 15, none⟩,
      ⟨.Number, strBytes "7", 1, 17, some (.Number ⟨7, 0⟩)⟩].map Token.tokenType :=
  c8_kind_round_trip (strBytes "var x = 12.30 + 7")
    ⟨[⟨.Var, strBytes "var", 1, 3, none⟩,
      ⟨.Identifier, strBytes "x", 1, 5, some (.Identifier (strBytes "x"))⟩,
      ⟨.Equal, strBytes "=", 1, 7, none⟩,
      ⟨.Number, strBytes "12.3", 1, 13, some (.Number ⟨123, 1⟩)⟩,
      ⟨.Plus, strBytes "+", 1, 15, none⟩,
      ⟨.Number, strBytes "7", 1, 17, some (.Number ⟨7, 0⟩)⟩], [], 16, 17, 1⟩
    (by decide) rfl (by decide)

end Rlox
